import Mathlib

/-!
# MZ_APO Simulink S-functions: knob input and DC motor driver

A shallow embedding of the hardware-facing parts of

* `src/simulink/mz_apo-2dc/sfAPOKnobInput.c`  (namespace `KnobInput`)
* `src/simulink/mz_apo-2dc/sfDCMotorOnZynq.c` (namespace `DCMotor`)

C integers are mathematical integers reduced explicitly into their machine
range (two's complement), a `real_T` is the rational that a finite double
denotes and the one double multiplication of the sources is rounded to the
nearest binary64 value, pointers are `Option Nat` with `none` for `NULL`, and
the calls a function makes on the mapped hardware are returned as a list in
call order.
-/

/-! ## Machine integers -/

/-- Conversion to `int32_t` / `int`: reduction modulo 2^32 into [-2^31, 2^31). -/
def int32_t (x : Int) : Int := (x + 2147483648) % 4294967296 - 2147483648

/-- Conversion to `int8_t`: reduction modulo 2^8 into [-128, 128). -/
def int8_t (x : Int) : Int := (x + 128) % 256 - 128

/-- Conversion to `uint8_t`: reduction modulo 2^8 into [0, 256). -/
def uint8_t (x : Int) : Int := x % 256

/-- Truncation toward zero, the rounding of a C conversion from `double` to an
integer type. -/
def truncReal (x : ℚ) : Int := if 0 ≤ x then ⌊x⌋ else ⌈x⌉

/-- Conversion `(int)x` of a `real_T`. -/
def real_to_int (x : ℚ) : Int := int32_t (truncReal x)

/-- Conversion `(uint32_t)x` of a `real_T`. -/
def real_to_uint32 (x : ℚ) : Nat := (truncReal x % 4294967296).toNat

/-! ## Doubles -/

/-- Rounding of a rational to the nearest integer, ties to the even one. -/
def roundHalfEven (y : ℚ) : Int :=
  if y - ⌊y⌋ < 1 / 2 then ⌊y⌋
  else if y - ⌊y⌋ > 1 / 2 then ⌊y⌋ + 1
  else if ⌊y⌋ % 2 = 0 then ⌊y⌋ else ⌊y⌋ + 1

/-- The binary exponent at which a binary64 value near `x` is stored: the `e`
with `2^e ≤ |x| < 2^(e+1)`, and -1022 throughout the subnormal range. -/
def binary64_exponent (x : ℚ) : Int := max (Int.log 2 |x|) (-1022)

/-- IEEE 754 binary64 rounding of an exact result, to nearest with ties to
even: `x` is rounded to a multiple of `2^(e-52)`, a 53-bit significand at the
exponent `e` of `x`. A result of magnitude `2^1024` or more stands for the
infinity that the double operation returns on overflow. -/
def binary64_round (x : ℚ) : ℚ :=
  (roundHalfEven (x / 2 ^ (binary64_exponent x - 52)) : ℚ) * 2 ^ (binary64_exponent x - 52)

namespace KnobInput

/-- The work vectors of one sfAPOKnobInput block instance: `PWORK_KNOBMEM_STATE`
(the mapped register block, `none` for `NULL`), the three `IWORK` integers, and
the error status set by `ssSetErrorStatus`. -/
structure SimStruct where
  PWORK_KNOBMEM_STATE : Option Nat
  IWORK_CHANNEL : Int
  IWORK_VALUE_RAW : Int
  IWORK_VALUE_OFFS : Int
  errorStatus : Option String
  deriving DecidableEq

/-- Function `mdlInitializeConditions` of sfAPOKnobInput.c: its body is empty. -/
def mdlInitializeConditions (S : SimStruct) : SimStruct := S

/-- Function `mdlStart` of sfAPOKnobInput.c. `mem_address_map_create` is the
result of mapping the knob register block, `knobs_8bit` the word that
`mem_address_reg_rd(memadrs_knob, SPILED_REG_KNOBS_8BIT_o)` returns, and
`PRM_CHANNEL`, `PRM_INITIAL_VALUE` the block parameters. The shift of the
signed `knob_value` is arithmetic. -/
def mdlStart (mem_address_map_create : Option Nat) (knobs_8bit : Nat)
    (PRM_CHANNEL PRM_INITIAL_VALUE : ℚ) (S : SimStruct) : SimStruct :=
  let S := { S with PWORK_KNOBMEM_STATE := none }
  match mem_address_map_create with
  | none => { S with errorStatus := some "Error when accessing physical address." }
  | some memadrs_knob =>
    let S := { S with PWORK_KNOBMEM_STATE := some memadrs_knob }
    let knob_value : Int := int32_t knobs_8bit
    let S := { S with IWORK_CHANNEL := real_to_int PRM_CHANNEL }
    let initial_value : Int := real_to_int PRM_INITIAL_VALUE
    let knob_value : Int := Int.shiftRight knob_value (8 * S.IWORK_CHANNEL).toNat
    let S := { S with IWORK_VALUE_RAW := int8_t knob_value }
    let S := { S with IWORK_VALUE_OFFS := int32_t (initial_value - knob_value) }
    mdlInitializeConditions S

/-- Function `mdlOutputs` of sfAPOKnobInput.c: the value stored to `y[0]`. -/
def mdlOutputs (S : SimStruct) : Int :=
  int32_t (S.IWORK_VALUE_RAW + S.IWORK_VALUE_OFFS)

/-- Function `mdlUpdate` of sfAPOKnobInput.c; `knobs_8bit` is the word read
from the knob register in this step. -/
def mdlUpdate (knobs_8bit : Nat) (S : SimStruct) : SimStruct :=
  let knob_value : Int := int32_t knobs_8bit
  let knob_value : Int := Int.shiftRight knob_value (8 * S.IWORK_CHANNEL).toNat
  let knob_value : Int := Int.land knob_value 0xff
  { S with IWORK_VALUE_RAW :=
      int32_t (S.IWORK_VALUE_RAW + int8_t (int32_t (knob_value - S.IWORK_VALUE_RAW))) }

/-- Function `mdlTerminate` of sfAPOKnobInput.c: the handle is handed to
`mem_address_unmap_and_free` and the work pointer is cleared. -/
def mdlTerminate (S : SimStruct) : SimStruct :=
  { S with PWORK_KNOBMEM_STATE := none }

/-- A run of `mdlUpdate` steps, one per register sample, oldest first. -/
def updates (samples : List Nat) (S : SimStruct) : SimStruct :=
  samples.foldl (fun T p => mdlUpdate p T) S

/-- The byte lane of the packed knob register selected by `channel`, in the
words of the specification: `(packed >> (8*channel)) & 0xff`. -/
def extractLane (packed : Nat) (channel : Nat) : Nat :=
  (packed >>> (8 * channel)) &&& 0xff

/-- The samples `(packed_i, d_i)` follow a counter that starts at the lane byte
of `prev` and truly moves by `d_i` counts, `|d_i| ≤ 127`, between consecutive
samples: `byte_i = (byte_{i-1} + d_i) mod 256`. -/
def Tracks (channel : Nat) : Nat → List (Nat × Int) → Prop
  | _, [] => True
  | prev, (p, d) :: rest =>
      (-127 ≤ d ∧ d ≤ 127) ∧
      (extractLane p channel : Int) = ((extractLane prev channel : Int) + d) % 256 ∧
      Tracks channel p rest

/-- The constant `INT_MIN` of `<limits.h>` for a 32-bit `int`. -/
def INT_MIN : Int := -2147483648

/-- The constant `INT_MAX` of `<limits.h>` for a 32-bit `int`. -/
def INT_MAX : Int := 2147483647

/-- Function `mdlCheckParameters` of sfAPOKnobInput.c on the three block
parameters, each the `double` that `mxGetScalar` returns. The three tests run
one after the other and each failing test calls `ssSetErrorStatus`, so a later
message replaces an earlier one. -/
def mdlCheckParameters (PRM_TS PRM_CHANNEL PRM_INITIAL_VALUE : ℚ) (S : SimStruct) :
    SimStruct :=
  let S := if PRM_TS < 0 ∧ PRM_TS ≠ -1
    then { S with errorStatus := some "Ts has to be positive or -1 for automatic step" }
    else S
  let S := if PRM_CHANNEL < 0 ∨ PRM_CHANNEL > 2
    then { S with errorStatus := some "valid IRC channel is 0, 1, or 2" }
    else S
  let S := if PRM_INITIAL_VALUE < (INT_MIN : ℚ) ∨ PRM_INITIAL_VALUE > (INT_MAX : ℚ)
    then { S with errorStatus := some "initial value has to be in int range" }
    else S
  S

/-- The register value read most recently: the last of the samples, or the
value read by `mdlStart` when there was no update yet. -/
def lastRead (start : Nat) (samples : List Nat) : Nat := samples.getLastD start

end KnobInput

namespace DCMotor

/-- The constants of `mzapo_regs.h` that sfDCMotorOnZynq.c uses. The header is
not part of the sources at hand, so the values are a parameter of the model:
the two base addresses and the size of the register block, the offsets of the
control, period, duty and encoder registers, and the bit masks. -/
structure DcspdrvRegs where
  DCSPDRV_REG_BASE_PHYS_0 : Nat
  DCSPDRV_REG_BASE_PHYS_1 : Nat
  DCSPDRV_REG_SIZE : Nat
  DCSPDRV_REG_CR_o : Nat
  DCSPDRV_REG_PERIOD_o : Nat
  DCSPDRV_REG_DUTY_o : Nat
  DCSPDRV_REG_IRC_o : Nat
  DCSPDRV_REG_CR_IRC_RESET_m : Nat
  DCSPDRV_REG_CR_PWM_ENABLE_m : Nat
  DCSPDRV_REG_PERIOD_MASK_m : Nat
  DCSPDRV_REG_DUTY_DIR_A_m : Nat
  DCSPDRV_REG_DUTY_DIR_B_m : Nat
  deriving DecidableEq

/-- A call made on a resource, with its arguments. The first argument of a
register access is the `mem_address_map_t *` handed to it (`none` for `NULL`). -/
inductive HwCall where
  | map_create (base size : Nat)
  | malloc
  | reg_rd (mem_map : Option Nat) (reg_offs : Nat)
  | reg_wr (mem_map : Option Nat) (reg_offs : Nat) (val : Nat)
  | free (ptr : Nat)
  deriving DecidableEq

/-- The register writes of a call list, in order. -/
def regWrites : List HwCall → List (Option Nat × Nat × Nat)
  | [] => []
  | HwCall.reg_wr m o v :: t => (m, o, v) :: regWrites t
  | _ :: t => regWrites t

/-- The register reads of a call list, in order. -/
def regReads : List HwCall → List (Option Nat × Nat)
  | [] => []
  | HwCall.reg_rd m o :: t => (m, o) :: regReads t
  | _ :: t => regReads t

/-- The pointers released by a call list, in order. -/
def frees : List HwCall → List Nat
  | [] => []
  | HwCall.free p :: t => p :: frees t
  | _ :: t => frees t

/-- The work vector of one sfDCMotorOnZynq block instance:
`PWORK_ZYNQDCMOTMEM_STATE` (the mapped register block) and
`PWORK_ZYNQDCMOTPOS_STATE` (the allocated position cell), each `none` for
`NULL`; `irc_pos` is the content of the `int32_T` cell the second pointer
refers to while it is not `NULL`; `errorStatus` is set by `ssSetErrorStatus`. -/
structure SimStruct where
  PWORK_ZYNQDCMOTMEM_STATE : Option Nat
  PWORK_ZYNQDCMOTPOS_STATE : Option Nat
  irc_pos : Int
  errorStatus : Option String
  deriving DecidableEq

/-- Function `mdlInitializeConditions` of sfDCMotorOnZynq.c. The result is
`none` when `*irc_pos = 0` stores through a `NULL` pointer. -/
def mdlInitializeConditions (R : DcspdrvRegs) (S : SimStruct) :
    Option (SimStruct × List HwCall) :=
  let memadrs_dcmot1 := S.PWORK_ZYNQDCMOTMEM_STATE
  match S.PWORK_ZYNQDCMOTPOS_STATE with
  | none => none
  | some _ =>
    let S := { S with irc_pos := 0 }
    some (S,
      [ HwCall.reg_wr memadrs_dcmot1 R.DCSPDRV_REG_CR_o R.DCSPDRV_REG_CR_IRC_RESET_m,
        HwCall.reg_wr memadrs_dcmot1 R.DCSPDRV_REG_PERIOD_o
          (5000 &&& R.DCSPDRV_REG_PERIOD_MASK_m),
        HwCall.reg_wr memadrs_dcmot1 R.DCSPDRV_REG_DUTY_o 0,
        HwCall.reg_wr memadrs_dcmot1 R.DCSPDRV_REG_CR_o R.DCSPDRV_REG_CR_PWM_ENABLE_m ])

/-- Function `mdlStart` of sfDCMotorOnZynq.c. `mem_address_map_create` answers
the mapping request for a base address and size, `malloc` is the result of
allocating the position cell. -/
def mdlStart (R : DcspdrvRegs) (PRM_MOT_ID : ℚ)
    (mem_address_map_create : Nat → Nat → Option Nat) (malloc : Option Nat)
    (S : SimStruct) : Option (SimStruct × List HwCall) :=
  let S := { S with PWORK_ZYNQDCMOTMEM_STATE := none }
  let base := if PRM_MOT_ID = 0 then R.DCSPDRV_REG_BASE_PHYS_0 else R.DCSPDRV_REG_BASE_PHYS_1
  match mem_address_map_create base R.DCSPDRV_REG_SIZE with
  | none =>
    some ({ S with errorStatus := some "Error when accessing physical address." },
      [HwCall.map_create base R.DCSPDRV_REG_SIZE])
  | some memadrs_dcmot1 =>
    let S := { S with PWORK_ZYNQDCMOTMEM_STATE := some memadrs_dcmot1 }
    let S := { S with PWORK_ZYNQDCMOTPOS_STATE := none }
    match malloc with
    | none =>
      some ({ S with errorStatus := some "Error when calling malloc." },
        [HwCall.map_create base R.DCSPDRV_REG_SIZE, HwCall.malloc])
    | some irc_pos_state =>
      let S := { S with irc_pos := 0 }
      let S := { S with PWORK_ZYNQDCMOTPOS_STATE := some irc_pos_state }
      (mdlInitializeConditions R S).map
        (fun r => (r.1, HwCall.map_create base R.DCSPDRV_REG_SIZE :: HwCall.malloc :: r.2))

/-- Function `mdlOutputs` of sfDCMotorOnZynq.c: the value stored to the output
port, `none` when `*irc_pos_state` reads through a `NULL` pointer. -/
def mdlOutputs (S : SimStruct) : Option Int :=
  match S.PWORK_ZYNQDCMOTPOS_STATE with
  | none => none
  | some _ => some S.irc_pos

/-- Function `mdlUpdate` of sfDCMotorOnZynq.c. `pwm_input` is the value of the
input signal, a finite double; `irc` is the word that
`mem_address_reg_rd(memadrs_dcmot1, DCSPDRV_REG_IRC_o)` returns. The product
`**(pwm_input) * 5000` is a double multiplication, so it is rounded to binary64;
the comparisons, the negation and the conversion to `uint32_t` are exact. The
result is `none` when `*irc_pos` stores through a `NULL` pointer. -/
def mdlUpdate (R : DcspdrvRegs) (pwm_input : ℚ) (irc : Nat) (S : SimStruct) :
    Option (SimStruct × List HwCall) :=
  let memadrs_dcmot1 := S.PWORK_ZYNQDCMOTMEM_STATE
  match S.PWORK_ZYNQDCMOTPOS_STATE with
  | none => none
  | some _ =>
    let S := { S with irc_pos := int32_t irc }
    let pwm : ℚ := binary64_round (pwm_input * 5000)
    let pwm : ℚ := if pwm > 5000 then 5000 else pwm
    let pwm : ℚ := if pwm < -5000 then -5000 else pwm
    if pwm > 0 then
      some (S,
        [ HwCall.reg_rd memadrs_dcmot1 R.DCSPDRV_REG_IRC_o,
          HwCall.reg_wr memadrs_dcmot1 R.DCSPDRV_REG_DUTY_o
            (real_to_uint32 pwm ||| R.DCSPDRV_REG_DUTY_DIR_A_m) ])
    else
      some (S,
        [ HwCall.reg_rd memadrs_dcmot1 R.DCSPDRV_REG_IRC_o,
          HwCall.reg_wr memadrs_dcmot1 R.DCSPDRV_REG_DUTY_o
            (real_to_uint32 (-pwm) ||| R.DCSPDRV_REG_DUTY_DIR_B_m) ])

/-- Function `mdlTerminate` of sfDCMotorOnZynq.c. The two register writes come
before the pointer tests; each non-`NULL` pointer is cleared and freed. -/
def mdlTerminate (R : DcspdrvRegs) (S : SimStruct) : SimStruct × List HwCall :=
  let memadrs_dcmot1 := S.PWORK_ZYNQDCMOTMEM_STATE
  let calls :=
    [ HwCall.reg_wr memadrs_dcmot1 R.DCSPDRV_REG_DUTY_o 0,
      HwCall.reg_wr memadrs_dcmot1 R.DCSPDRV_REG_CR_o 0 ]
  let irc_pos := S.PWORK_ZYNQDCMOTPOS_STATE
  let (S, calls) :=
    match memadrs_dcmot1 with
    | some p => ({ S with PWORK_ZYNQDCMOTMEM_STATE := none }, calls ++ [HwCall.free p])
    | none => (S, calls)
  match irc_pos with
  | some p => ({ S with PWORK_ZYNQDCMOTPOS_STATE := none }, calls ++ [HwCall.free p])
  | none => (S, calls)

/-- The duty in the words of the specification: `pwmCommand * 5000` clamped to
`[-5000, 5000]`. -/
def clampedDuty (pwmCommand : ℚ) : ℚ := max (-5000) (min 5000 (pwmCommand * 5000))

/-- The duty with the product taken as the double product: `pwmCommand * 5000`
rounded to binary64, then clamped to `[-5000, 5000]`. -/
def roundedDuty (pwmCommand : ℚ) : ℚ :=
  max (-5000) (min 5000 (binary64_round (pwmCommand * 5000)))

/-- The double nearest to 0.3, bit pattern 0x3FD3333333333333: the significand
5404319552844595 at exponent -2. -/
def double_0_3 : ℚ := 5404319552844595 / 18014398509481984

/-- The value of a 32-bit register word reinterpreted as a signed 32-bit
integer, in the words of the specification. -/
def asSigned32 (e : Nat) : Int := if e < 2147483648 then (e : Int) else (e : Int) - 4294967296

/-- A concrete register map on which the model is evaluated: registers at
offsets 0x00 (control), 0x08 (period), 0x0c (duty), 0x20 (encoder), a 30-bit
period mask, and the two direction tags in bits 30 (A) and 31 (B) of the duty
word. -/
def sampleRegs : DcspdrvRegs :=
  { DCSPDRV_REG_BASE_PHYS_0 := 0x43c20000
    DCSPDRV_REG_BASE_PHYS_1 := 0x43c30000
    DCSPDRV_REG_SIZE := 0x4000
    DCSPDRV_REG_CR_o := 0x00
    DCSPDRV_REG_PERIOD_o := 0x08
    DCSPDRV_REG_DUTY_o := 0x0c
    DCSPDRV_REG_IRC_o := 0x20
    DCSPDRV_REG_CR_IRC_RESET_m := 0x100
    DCSPDRV_REG_CR_PWM_ENABLE_m := 0x40
    DCSPDRV_REG_PERIOD_MASK_m := 0x3fffffff
    DCSPDRV_REG_DUTY_DIR_A_m := 0x40000000
    DCSPDRV_REG_DUTY_DIR_B_m := 0x80000000 }

end DCMotor

/-! ## Arithmetic of the conversions -/

theorem land_0xff (x : Int) : Int.land x 0xff = x % 256 := by
  cases x with
  | ofNat n =>
    show ((n &&& 255 : Nat) : Int) = _
    have h := Nat.and_pow_two_sub_one_eq_mod n 8
    norm_num at h
    rw [h]; rfl
  | negSucc n =>
    show ((Nat.ldiff 255 n : Nat) : Int) = _
    have h : Nat.ldiff 255 n = 255 - n % 256 := by
      apply Nat.eq_of_testBit_eq
      intro i
      rw [Nat.testBit_ldiff]
      have h1 : 255 - n % 256 = 2 ^ 8 - (n % 2 ^ 8 + 1) := by norm_num; omega
      have h2 : (255 : Nat) = 2 ^ 8 - 1 := by norm_num
      rw [h1, Nat.testBit_two_pow_sub_succ (Nat.mod_lt _ (by norm_num)), h2,
        Nat.testBit_two_pow_sub_one, Nat.testBit_mod_two_pow]
      by_cases hi : i < 8 <;> simp [hi]
    rw [h]
    have hn : Int.negSucc n = -((n : Int) + 1) := rfl
    rw [hn]
    omega

theorem shiftRight_eq_div (x : Int) (n : Nat) : Int.shiftRight x n = x / 2 ^ n := by
  have h := Int.shiftRight_eq_div_pow x n
  simpa using h

theorem truncReal_intCast (n : Int) : truncReal (n : ℚ) = n := by
  unfold truncReal
  split <;> simp

theorem real_to_int_natCast (n : Nat) : real_to_int (n : ℚ) = int32_t n := by
  have h := truncReal_intCast (n : Int)
  simp only [Int.cast_natCast] at h
  simp [real_to_int, h]

theorem extractLane_eq (p ch : Nat) : KnobInput.extractLane p ch = p / 2 ^ (8 * ch) % 256 := by
  unfold KnobInput.extractLane
  have h := Nat.and_pow_two_sub_one_eq_mod (p >>> (8 * ch)) 8
  norm_num at h
  rw [h, Nat.shiftRight_eq_div_pow]

/-- The shifted and masked word of `mdlUpdate` is the selected lane byte. -/
theorem knob_value_lane (p ch : Nat) (hch : ch ≤ 2) :
    Int.land (Int.shiftRight (int32_t p) (8 * (ch : Int)).toNat) 0xff = (KnobInput.extractLane p ch : Int) := by
  rw [land_0xff, extractLane_eq, shiftRight_eq_div]
  have h8 : (8 * (ch : Int)).toNat = 8 * ch := by omega
  rw [h8]
  unfold int32_t
  push_cast
  interval_cases ch <;> norm_num <;> omega

/-- The shifted word of `mdlStart` agrees with the selected lane byte modulo 256. -/
theorem start_raw_lane (p ch : Nat) (hch : ch ≤ 2) :
    int8_t (Int.shiftRight (int32_t p) (8 * (ch : Int)).toNat) % 256 = (KnobInput.extractLane p ch : Int) := by
  rw [extractLane_eq, shiftRight_eq_div]
  have h8 : (8 * (ch : Int)).toNat = 8 * ch := by omega
  rw [h8]
  unfold int32_t int8_t
  push_cast
  interval_cases ch <;> norm_num <;> omega

namespace KnobInput

/-- One `mdlUpdate` step on a state whose `raw` agrees with the previous lane
byte modulo 256: a true movement of `d` counts, `|d| ≤ 127`, adds `d`. -/
theorem mdlUpdate_raw_of_move (ch : Nat) (hch : ch ≤ 2) (prev p : Nat) (d : Int)
    (S : SimStruct) (hc : S.IWORK_CHANNEL = ch)
    (hraw : S.IWORK_VALUE_RAW % 256 = (extractLane prev ch : Int))
    (hd : -127 ≤ d ∧ d ≤ 127)
    (hmove : (extractLane p ch : Int) = ((extractLane prev ch : Int) + d) % 256) :
    (mdlUpdate p S).IWORK_VALUE_RAW = int32_t (S.IWORK_VALUE_RAW + d) := by
  simp only [mdlUpdate, hc, knob_value_lane p ch hch]
  rw [hmove, ← hraw]
  unfold int32_t int8_t
  omega

theorem mdlUpdate_channel (p : Nat) (S : SimStruct) :
    (mdlUpdate p S).IWORK_CHANNEL = S.IWORK_CHANNEL := rfl

theorem mdlUpdate_offs (p : Nat) (S : SimStruct) :
    (mdlUpdate p S).IWORK_VALUE_OFFS = S.IWORK_VALUE_OFFS := rfl

theorem updates_track (ch : Nat) (hch : ch ≤ 2) :
    ∀ (samples : List (Nat × Int)) (prev : Nat) (S : SimStruct),
      S.IWORK_CHANNEL = ch →
      S.IWORK_VALUE_RAW % 256 = (extractLane prev ch : Int) →
      Tracks ch prev samples →
      mdlOutputs (updates (samples.map Prod.fst) S)
        = int32_t (mdlOutputs S + (samples.map Prod.snd).sum) := by
  intro samples
  induction samples with
  | nil =>
    intro prev S _ _ _
    simp only [updates, List.map_nil, List.foldl_nil, List.sum_nil, mdlOutputs, int32_t]
    omega
  | cons a rest ih =>
    intro prev S hc hraw ht
    obtain ⟨p, d⟩ := a
    obtain ⟨hd, hmove, hrest⟩ := ht
    have hstep := mdlUpdate_raw_of_move ch hch prev p d S hc hraw hd hmove
    have hraw2 : (mdlUpdate p S).IWORK_VALUE_RAW % 256 = (extractLane p ch : Int) := by
      rw [hstep, hmove, ← hraw]
      unfold int32_t
      omega
    have h := ih p (mdlUpdate p S) (by rw [mdlUpdate_channel, hc]) hraw2 hrest
    simp only [updates, List.map_cons, List.foldl_cons, List.sum_cons] at h ⊢
    rw [h]
    simp only [mdlOutputs, hstep, mdlUpdate_offs]
    unfold int32_t
    omega

theorem mdlStart_channel (h p ch : Nat) (hch : ch ≤ 2) (iv : ℚ) (S : SimStruct) :
    (mdlStart (some h) p ch iv S).IWORK_CHANNEL = ch := by
  have hc : int32_t (ch : Int) = ch := by unfold int32_t; omega
  unfold mdlStart mdlInitializeConditions
  simp only [real_to_int_natCast]
  exact hc

theorem mdlStart_raw (h p ch : Nat) (hch : ch ≤ 2) (iv : ℚ) (S : SimStruct) :
    (mdlStart (some h) p ch iv S).IWORK_VALUE_RAW % 256 = (extractLane p ch : Int) := by
  have hc : int32_t (ch : Int) = ch := by unfold int32_t; omega
  unfold mdlStart mdlInitializeConditions
  simp only [real_to_int_natCast, hc]
  exact start_raw_lane p ch hch

end KnobInput

/-! ## Arithmetic of binary64 rounding -/

theorem roundHalfEven_ge (k : ℤ) (y : ℚ) (h : (k : ℚ) ≤ y) : k ≤ roundHalfEven y := by
  have hf : k ≤ ⌊y⌋ := Int.le_floor.mpr h
  unfold roundHalfEven
  split_ifs <;> omega

theorem roundHalfEven_le (k : ℤ) (y : ℚ) (h : y ≤ (k : ℚ)) : roundHalfEven y ≤ k := by
  have hf : ⌊y⌋ ≤ k := by
    have := Int.floor_le y
    exact_mod_cast (Int.floor_le y).trans h |> fun h' => (Int.cast_le (R := ℚ)).mp h'
  unfold roundHalfEven
  split_ifs with h1 h2 h3
  · exact hf
  · have hlt : (⌊y⌋ : ℚ) < k := by linarith
    have : ⌊y⌋ < k := by exact_mod_cast hlt
    omega
  · exact hf
  · have hlt : (⌊y⌋ : ℚ) < k := by
      have : ¬ (y - ⌊y⌋ < 1 / 2) := h1
      linarith
    have : ⌊y⌋ < k := by exact_mod_cast hlt
    omega

theorem roundHalfEven_intCast (k : ℤ) : roundHalfEven (k : ℚ) = k := by
  unfold roundHalfEven
  simp

theorem roundHalfEven_of_gt_half (f : ℤ) (y : ℚ) (h1 : (f : ℚ) + 1 / 2 < y) (h2 : y < f + 1) :
    roundHalfEven y = f + 1 := by
  have hf : ⌊y⌋ = f := by
    rw [Int.floor_eq_iff]
    constructor <;> linarith
  unfold roundHalfEven
  rw [hf]
  rw [if_neg (by linarith), if_pos (by linarith)]

theorem binary64_exponent_eq (x : ℚ) (e : ℤ) (he : -1022 ≤ e) (h1 : (2 : ℚ) ^ e ≤ |x|)
    (h2 : |x| < (2 : ℚ) ^ (e + 1)) : binary64_exponent x = e := by
  have hpos : (0 : ℚ) < |x| := lt_of_lt_of_le (by positivity) h1
  have hl : Int.log 2 |x| = e := by
    apply le_antisymm
    · have := (Int.lt_zpow_iff_log_lt (b := 2) (by norm_num) hpos (x := e + 1)).mp
        (by exact_mod_cast h2)
      omega
    · exact (Int.zpow_le_iff_le_log (b := 2) (by norm_num) hpos).mp (by exact_mod_cast h1)
  unfold binary64_exponent
  rw [hl]
  exact max_eq_left he

theorem binary64_round_ge_of_mul (x : ℚ) (k : ℤ)
    (h : (k : ℚ) * 2 ^ (binary64_exponent x - 52) ≤ x) :
    (k : ℚ) * 2 ^ (binary64_exponent x - 52) ≤ binary64_round x := by
  have hu : (0 : ℚ) < 2 ^ (binary64_exponent x - 52) := by positivity
  have hk : (k : ℚ) ≤ x / 2 ^ (binary64_exponent x - 52) := (le_div_iff₀ hu).mpr h
  have hr := roundHalfEven_ge k _ hk
  unfold binary64_round
  have hc : (k : ℚ) ≤ (roundHalfEven (x / 2 ^ (binary64_exponent x - 52)) : ℚ) := by
    exact_mod_cast hr
  exact mul_le_mul_of_nonneg_right hc hu.le

theorem binary64_round_le_of_mul (x : ℚ) (k : ℤ)
    (h : x ≤ (k : ℚ) * 2 ^ (binary64_exponent x - 52)) :
    binary64_round x ≤ (k : ℚ) * 2 ^ (binary64_exponent x - 52) := by
  have hu : (0 : ℚ) < 2 ^ (binary64_exponent x - 52) := by positivity
  have hk : x / 2 ^ (binary64_exponent x - 52) ≤ (k : ℚ) := (div_le_iff₀ hu).mpr h
  have hr := roundHalfEven_le k _ hk
  unfold binary64_round
  have hc : (roundHalfEven (x / 2 ^ (binary64_exponent x - 52)) : ℚ) ≤ (k : ℚ) := by
    exact_mod_cast hr
  exact mul_le_mul_of_nonneg_right hc hu.le

/-- The value 5000 on the grid of a binary64 exponent up to 55, and the power
of two at the bottom of a binade from exponent 56 on, which exceeds 5000. -/
theorem five_thousand_on_grid (e : ℤ) (he : e ≤ 55) :
    ((625 * 2 ^ (55 - e).toNat : ℤ) : ℚ) * 2 ^ (e - 52) = 5000 := by
  have hn : (((55 - e).toNat : ℕ) : ℤ) = 55 - e := Int.toNat_of_nonneg (by omega)
  push_cast
  rw [mul_assoc, ← zpow_natCast (2 : ℚ) (55 - e).toNat, hn, ← zpow_add₀ (by norm_num : (2 : ℚ) ≠ 0)]
  have : 55 - e + (e - 52) = 3 := by ring
  rw [this]
  norm_num

theorem binade_bottom (e : ℤ) : (((2 : ℤ) ^ 52 : ℤ) : ℚ) * 2 ^ (e - 52) = 2 ^ e := by
  have h52 : (((2 : ℤ) ^ 52 : ℤ) : ℚ) = (2 : ℚ) ^ (52 : ℤ) := by norm_num
  rw [h52, ← zpow_add₀ (by norm_num : (2 : ℚ) ≠ 0)]
  congr 1
  ring

theorem two_zpow_ge_5000 (e : ℤ) (he : 56 ≤ e) : (5000 : ℚ) ≤ 2 ^ e := by
  have h1 : (2 : ℚ) ^ (56 : ℤ) ≤ 2 ^ e := zpow_le_zpow_right₀ (by norm_num) he
  have h2 : (5000 : ℚ) ≤ 2 ^ (56 : ℤ) := by norm_num
  exact h2.trans h1

theorem exponent_zpow_le_abs (x : ℚ) (he : 56 ≤ binary64_exponent x) :
    (2 : ℚ) ^ binary64_exponent x ≤ |x| := by
  have hlog : binary64_exponent x = Int.log 2 |x| := by
    unfold binary64_exponent at he ⊢
    apply max_eq_left
    by_contra hc
    push_neg at hc
    rw [max_eq_right hc.le] at he
    omega
  have hx : (0 : ℚ) < |x| := by
    rcases eq_or_lt_of_le (abs_nonneg x) with h0 | h0
    · rw [← h0, Int.log_zero_right] at hlog
      omega
    · exact h0
  rw [hlog]
  exact_mod_cast Int.zpow_log_le_self (b := 2) (by norm_num) hx

theorem binary64_round_ge_5000 (x : ℚ) (hx : 5000 ≤ x) : 5000 ≤ binary64_round x := by
  by_cases he : binary64_exponent x ≤ 55
  · have hg := five_thousand_on_grid _ he
    have h := binary64_round_ge_of_mul x (625 * 2 ^ (55 - binary64_exponent x).toNat)
      (by rw [hg]; exact hx)
    rw [hg] at h
    exact h
  · have he2 : 56 ≤ binary64_exponent x := by omega
    have hb := binade_bottom (binary64_exponent x)
    have hle := exponent_zpow_le_abs x he2
    rw [abs_of_nonneg (by linarith)] at hle
    have h := binary64_round_ge_of_mul x (2 ^ 52) (by rw [hb]; exact hle)
    rw [hb] at h
    exact (two_zpow_ge_5000 _ he2).trans h

theorem binary64_round_le_neg_5000 (x : ℚ) (hx : x ≤ -5000) : binary64_round x ≤ -5000 := by
  by_cases he : binary64_exponent x ≤ 55
  · have hg := five_thousand_on_grid _ he
    have hg2 : ((-(625 * 2 ^ (55 - binary64_exponent x).toNat) : ℤ) : ℚ)
        * 2 ^ (binary64_exponent x - 52) = -5000 := by
      rw [Int.cast_neg, neg_mul, hg]
    have h := binary64_round_le_of_mul x (-(625 * 2 ^ (55 - binary64_exponent x).toNat))
      (by rw [hg2]; exact hx)
    rw [hg2] at h
    exact h
  · have he2 : 56 ≤ binary64_exponent x := by omega
    have hb := binade_bottom (binary64_exponent x)
    have hb2 : ((-(2 ^ 52) : ℤ) : ℚ) * 2 ^ (binary64_exponent x - 52)
        = -2 ^ binary64_exponent x := by
      rw [Int.cast_neg, neg_mul, hb]
    have hle := exponent_zpow_le_abs x he2
    rw [abs_of_nonpos (by linarith)] at hle
    have h := binary64_round_le_of_mul x (-(2 ^ 52)) (by rw [hb2]; linarith)
    rw [hb2] at h
    have := two_zpow_ge_5000 _ he2
    linarith

/-- A rational on the grid of its own binade is a binary64 value: rounding
returns it. -/
theorem binary64_round_of_grid (x : ℚ) (e k : ℤ) (he : -1022 ≤ e) (h1 : (2 : ℚ) ^ e ≤ |x|)
    (h2 : |x| < (2 : ℚ) ^ (e + 1)) (hk : x = (k : ℚ) * 2 ^ (e - 52)) :
    binary64_round x = x := by
  have hexp := binary64_exponent_eq x e he h1 h2
  unfold binary64_round
  rw [hexp]
  have hu : (2 : ℚ) ^ (e - 52) ≠ 0 := by positivity
  have hq : x / 2 ^ (e - 52) = (k : ℚ) := by
    rw [hk]; field_simp
  rw [hq, roundHalfEven_intCast, ← hk]

theorem binary64_round_zero : binary64_round 0 = 0 := by
  unfold binary64_round
  simp [roundHalfEven]

theorem binary64_round_neg_2500 : binary64_round (-2500) = -2500 := by
  apply binary64_round_of_grid (-2500) 11 (-(2500 * 2 ^ 41)) (by norm_num)
  · norm_num [abs_of_neg]
  · norm_num [abs_of_neg]
  · norm_num

/-- The double nearest to 0.3 times 5000 rounds up to 1500. -/
theorem binary64_round_0_3_mul_5000 :
    binary64_round ((5404319552844595 / 18014398509481984 : ℚ) * 5000) = 1500 := by
  have hexp : binary64_exponent ((5404319552844595 / 18014398509481984 : ℚ) * 5000) = 10 := by
    apply binary64_exponent_eq _ 10 (by norm_num)
    · rw [abs_of_pos (by norm_num)]; norm_num
    · rw [abs_of_pos (by norm_num)]; norm_num
  unfold binary64_round
  rw [hexp]
  have hr : roundHalfEven ((5404319552844595 / 18014398509481984 : ℚ) * 5000 / 2 ^ ((10 : ℤ) - 52))
      = 6597069766655999 + 1 := by
    apply roundHalfEven_of_gt_half
    · norm_num
    · norm_num
  rw [hr]
  norm_num

theorem double_0_3_is_binary64 :
    binary64_round (5404319552844595 / 18014398509481984 : ℚ)
      = 5404319552844595 / 18014398509481984 := by
  apply binary64_round_of_grid _ (-2) 5404319552844595 (by norm_num)
  · rw [abs_of_pos (by norm_num)]; norm_num
  · rw [abs_of_pos (by norm_num)]; norm_num
  · norm_num

/-! ## DC motor: helper lemmas -/

theorem real_to_uint32_eq_floor (x : ℚ) (h0 : 0 ≤ x) (h1 : x ≤ 5000) :
    real_to_uint32 x = ⌊x⌋₊ := by
  unfold real_to_uint32 truncReal
  rw [if_pos h0]
  have hf0 : 0 ≤ ⌊x⌋ := Int.floor_nonneg.mpr h0
  have hf1 : ⌊x⌋ ≤ 5000 := by
    have : ⌊x⌋ ≤ ⌊(5000 : ℚ)⌋ := Int.floor_mono h1
    simpa using this
  rw [Int.emod_eq_of_lt hf0 (by omega)]
  rfl

theorem floor_le_5000 (x : ℚ) (h1 : x ≤ 5000) : ⌊x⌋₊ ≤ 5000 := by
  have : ⌊x⌋₊ ≤ ⌊(5000 : ℚ)⌋₊ := Nat.floor_mono h1
  simpa using this

namespace DCMotor

theorem roundedDuty_bounds (c : ℚ) : -5000 ≤ roundedDuty c ∧ roundedDuty c ≤ 5000 := by
  unfold roundedDuty
  constructor
  · exact le_max_left _ _
  · exact max_le (by norm_num) (min_le_left _ _)

/-- The three-statement clamp of `mdlUpdate` is the clamp to `[-5000, 5000]`. -/
theorem clamp_code_eq (x : ℚ) :
    (if (if x > 5000 then (5000 : ℚ) else x) < -5000 then (-5000 : ℚ)
      else (if x > 5000 then (5000 : ℚ) else x)) = max (-5000) (min 5000 x) := by
  by_cases h1 : x > 5000
  · rw [if_pos h1, if_neg (by norm_num), min_eq_left (le_of_lt h1), max_eq_right (by norm_num)]
  · rw [if_neg h1]
    rw [min_eq_right (not_lt.mp h1)]
    by_cases h2 : x < -5000
    · rw [if_pos h2, max_eq_left (le_of_lt h2)]
    · rw [if_neg h2, max_eq_right (not_lt.mp h2)]

theorem mdlUpdate_writes (R : DcspdrvRegs) (c : ℚ) (irc : Nat) (S : SimStruct) (p : Nat)
    (hp : S.PWORK_ZYNQDCMOTPOS_STATE = some p) :
    (mdlUpdate R c irc S).map (fun r => r.2) =
      some [ HwCall.reg_rd S.PWORK_ZYNQDCMOTMEM_STATE R.DCSPDRV_REG_IRC_o,
             HwCall.reg_wr S.PWORK_ZYNQDCMOTMEM_STATE R.DCSPDRV_REG_DUTY_o
               (if roundedDuty c > 0 then ⌊roundedDuty c⌋₊ ||| R.DCSPDRV_REG_DUTY_DIR_A_m
                else ⌊-roundedDuty c⌋₊ ||| R.DCSPDRV_REG_DUTY_DIR_B_m) ] := by
  have hb := roundedDuty_bounds c
  have hcl := clamp_code_eq (binary64_round (c * 5000))
  unfold mdlUpdate
  simp only [hp, hcl]
  unfold roundedDuty at hb ⊢
  by_cases h : max (-5000) (min 5000 (binary64_round (c * 5000))) > 0
  · rw [if_pos h, if_pos h, real_to_uint32_eq_floor _ (le_of_lt h) hb.2]
    rfl
  · rw [if_neg h, if_neg h, real_to_uint32_eq_floor _ (by linarith) (by linarith)]
    rfl

/-- The register writes of `mdlUpdate`: one write, to the duty register. -/
theorem mdlUpdate_regWrites (R : DcspdrvRegs) (c : ℚ) (irc : Nat) (S : SimStruct) (p : Nat)
    (hp : S.PWORK_ZYNQDCMOTPOS_STATE = some p) :
    (mdlUpdate R c irc S).map (fun r => regWrites r.2) =
      some [(S.PWORK_ZYNQDCMOTMEM_STATE, R.DCSPDRV_REG_DUTY_o,
        if roundedDuty c > 0 then ⌊roundedDuty c⌋₊ ||| R.DCSPDRV_REG_DUTY_DIR_A_m
          else ⌊-roundedDuty c⌋₊ ||| R.DCSPDRV_REG_DUTY_DIR_B_m)] := by
  have hw := mdlUpdate_writes R c irc S p hp
  cases hu : mdlUpdate R c irc S with
  | none => rw [hu] at hw; simp at hw
  | some r =>
    rw [hu] at hw
    simp only [Option.map_some', Option.some.injEq] at hw ⊢
    rw [hw]
    rfl

/-- The state after `mdlUpdate`: only the position cell changes, to the encoder
word converted to `int32_T`. -/
theorem mdlUpdate_state (R : DcspdrvRegs) (c : ℚ) (irc : Nat) (m : Option Nat) (p : Nat)
    (x : Int) (e : Option String) :
    (mdlUpdate R c irc ⟨m, some p, x, e⟩).map (fun r => r.1) =
      some ⟨m, some p, int32_t irc, e⟩ := by
  unfold mdlUpdate
  simp only
  split_ifs <;> rfl

theorem roundedDuty_zero : roundedDuty 0 = 0 := by
  unfold roundedDuty
  rw [zero_mul, binary64_round_zero]
  norm_num

end DCMotor

/-! ## Knob input: the first output and wraparound tracking -/

/-- C1, evaluated at an input where it fails. With channel 0, initial value 100
and the knob register holding 0x00003200 (knob 0 at 0, knob 1 at 0x32),
`mdlStart` stores `raw = 0` but `offset = 100 - 0x3200 = -12700`: the offset is
taken from the shifted word, which still carries the other lanes, and not from
the byte stored in `raw`. The first output is -12700, not the initial value. -/
theorem knob_first_output_channel0 (S : KnobInput.SimStruct) (h : Nat) :
    (KnobInput.mdlStart (some h) 0x00003200 0 100 S).IWORK_VALUE_RAW = 0 ∧
    (KnobInput.mdlStart (some h) 0x00003200 0 100 S).IWORK_VALUE_OFFS = -12700 ∧
    KnobInput.mdlOutputs (KnobInput.mdlStart (some h) 0x00003200 0 100 S) = -12700 ∧
    KnobInput.mdlOutputs (KnobInput.mdlStart (some h) 0x00003200 0 100 S) ≠ 100 := by
  simp [KnobInput.mdlStart, KnobInput.mdlInitializeConditions, KnobInput.mdlOutputs,
    real_to_int, truncReal, int32_t, int8_t, shiftRight_eq_div]

/-- C2, counterexample. Channel 0, initial value 2147483647, register 0 at
start and 1 at the next sample: the counter truly moves by +1, the output right
after start is 2147483647, and the output after the update is -2147483648, which
is not 2147483647 + 1. -/
theorem knob_tracking_overflow :
    KnobInput.Tracks 0 0 [(1, 1)] ∧
    KnobInput.mdlOutputs (KnobInput.mdlStart (some 0) 0 0 2147483647 ⟨none, 0, 0, 0, none⟩)
      = 2147483647 ∧
    KnobInput.mdlOutputs (KnobInput.updates [1]
        (KnobInput.mdlStart (some 0) 0 0 2147483647 ⟨none, 0, 0, 0, none⟩))
      = -2147483648 ∧
    KnobInput.mdlOutputs (KnobInput.updates [1]
        (KnobInput.mdlStart (some 0) 0 0 2147483647 ⟨none, 0, 0, 0, none⟩))
      ≠ KnobInput.mdlOutputs (KnobInput.mdlStart (some 0) 0 0 2147483647 ⟨none, 0, 0, 0, none⟩)
        + ([((1 : Nat), (1 : Int))].map Prod.snd).sum := by
  refine ⟨?_, ?_, ?_, ?_⟩
  · simp [KnobInput.Tracks, KnobInput.extractLane]
  · simp [KnobInput.mdlStart, KnobInput.mdlInitializeConditions, KnobInput.mdlOutputs,
      real_to_int, truncReal, int32_t, int8_t, shiftRight_eq_div]
  · simp [KnobInput.mdlStart, KnobInput.mdlInitializeConditions, KnobInput.mdlOutputs,
      KnobInput.updates, KnobInput.mdlUpdate, land_0xff,
      real_to_int, truncReal, int32_t, int8_t, shiftRight_eq_div]
  · simp [KnobInput.mdlStart, KnobInput.mdlInitializeConditions, KnobInput.mdlOutputs,
      KnobInput.updates, KnobInput.mdlUpdate, land_0xff,
      real_to_int, truncReal, int32_t, int8_t, shiftRight_eq_div]

/-- C2, amended. For every channel in {0,1,2}, every start register value and
every sequence of later register samples in which the selected 8-bit counter
truly moves by `d_i` counts with `|d_i| ≤ 127`, the output after the updates is
the output right after start plus `d_1 + ... + d_N`, reduced modulo 2^32 into
the signed 32-bit range; it is exactly that sum whenever the sum lies in the
signed 32-bit range, and it is the initial value plus the sum (reduced the same
way) whenever the first output is the initial value. -/
theorem knob_tracking_mod32 (ch : Nat) (hch : ch ≤ 2) (h p0 : Nat) (iv : ℚ)
    (S : KnobInput.SimStruct) (samples : List (Nat × Int))
    (ht : KnobInput.Tracks ch p0 samples) :
    KnobInput.mdlOutputs
        (KnobInput.updates (samples.map Prod.fst) (KnobInput.mdlStart (some h) p0 ch iv S))
      = int32_t (KnobInput.mdlOutputs (KnobInput.mdlStart (some h) p0 ch iv S)
          + (samples.map Prod.snd).sum) ∧
    ((-2147483648 ≤ KnobInput.mdlOutputs (KnobInput.mdlStart (some h) p0 ch iv S)
          + (samples.map Prod.snd).sum ∧
      KnobInput.mdlOutputs (KnobInput.mdlStart (some h) p0 ch iv S)
          + (samples.map Prod.snd).sum ≤ 2147483647) →
      KnobInput.mdlOutputs
          (KnobInput.updates (samples.map Prod.fst) (KnobInput.mdlStart (some h) p0 ch iv S))
        = KnobInput.mdlOutputs (KnobInput.mdlStart (some h) p0 ch iv S)
          + (samples.map Prod.snd).sum) ∧
    (KnobInput.mdlOutputs (KnobInput.mdlStart (some h) p0 ch iv S) = real_to_int iv →
      KnobInput.mdlOutputs
          (KnobInput.updates (samples.map Prod.fst) (KnobInput.mdlStart (some h) p0 ch iv S))
        = int32_t (real_to_int iv + (samples.map Prod.snd).sum)) := by
  have key := KnobInput.updates_track ch hch samples p0
    (KnobInput.mdlStart (some h) p0 ch iv S)
    (KnobInput.mdlStart_channel h p0 ch hch iv S)
    (KnobInput.mdlStart_raw h p0 ch hch iv S) ht
  refine ⟨key, ?_, ?_⟩
  · intro hr
    rw [key]
    unfold int32_t
    omega
  · intro h0
    rw [key, h0]

/-- Witness for C2: the two scenarios of the claim. Channel 1, initial value
100, register 0x00003200 then 0x00003700 (byte 0x32 then 0x37, movement +5)
gives `raw = 50`, `offset = 50` and output 100, then `raw = 55` and output 105;
channel 0, bytes 250 then 5 (movement +11 across the wrap) add +11 to the
output. -/
theorem knob_tracking_mod32_witness :
    (KnobInput.Tracks 1 0x00003200 [(0x00003700, 5)] ∧
      (KnobInput.mdlStart (some 0) 0x00003200 1 100 ⟨none, 0, 0, 0, none⟩).IWORK_VALUE_RAW
        = 50 ∧
      (KnobInput.mdlStart (some 0) 0x00003200 1 100 ⟨none, 0, 0, 0, none⟩).IWORK_VALUE_OFFS
        = 50 ∧
      KnobInput.mdlOutputs (KnobInput.mdlStart (some 0) 0x00003200 1 100 ⟨none, 0, 0, 0, none⟩)
        = 100 ∧
      (KnobInput.updates [0x00003700]
          (KnobInput.mdlStart (some 0) 0x00003200 1 100 ⟨none, 0, 0, 0, none⟩)).IWORK_VALUE_RAW
        = 55 ∧
      KnobInput.mdlOutputs (KnobInput.updates [0x00003700]
          (KnobInput.mdlStart (some 0) 0x00003200 1 100 ⟨none, 0, 0, 0, none⟩)) = 105) ∧
    (KnobInput.Tracks 0 250 [(5, 11)] ∧
      KnobInput.mdlOutputs (KnobInput.updates [5]
          (KnobInput.mdlStart (some 0) 250 0 100 ⟨none, 0, 0, 0, none⟩))
        = KnobInput.mdlOutputs (KnobInput.mdlStart (some 0) 250 0 100 ⟨none, 0, 0, 0, none⟩)
          + 11) := by
  have t1 : KnobInput.Tracks 1 0x00003200 [(0x00003700, 5)] := by
    simp [KnobInput.Tracks, extractLane_eq]
  have t2 : KnobInput.Tracks 0 250 [(5, 11)] := by
    simp [KnobInput.Tracks, extractLane_eq]
  have o1 : KnobInput.mdlOutputs
      (KnobInput.mdlStart (some 0) 0x00003200 1 100 ⟨none, 0, 0, 0, none⟩) = 100 := by
    simp [KnobInput.mdlStart, KnobInput.mdlInitializeConditions, KnobInput.mdlOutputs,
      real_to_int, truncReal, int32_t, int8_t, shiftRight_eq_div]
  have o2 : KnobInput.mdlOutputs
      (KnobInput.mdlStart (some 0) 250 0 100 ⟨none, 0, 0, 0, none⟩) = -156 := by
    simp [KnobInput.mdlStart, KnobInput.mdlInitializeConditions, KnobInput.mdlOutputs,
      real_to_int, truncReal, int32_t, int8_t, shiftRight_eq_div]
  have w1 := (knob_tracking_mod32 1 (by decide) 0 0x00003200 100 ⟨none, 0, 0, 0, none⟩
    [(0x00003700, 5)] t1).1
  have w2 := (knob_tracking_mod32 0 (by decide) 0 250 100 ⟨none, 0, 0, 0, none⟩
    [(5, 11)] t2).1
  simp only [List.map_cons, List.map_nil, List.sum_cons, List.sum_nil, Nat.cast_ofNat,
    Nat.cast_one, Nat.cast_zero] at w1 w2
  rw [o1] at w1
  rw [o2] at w2
  refine ⟨⟨t1, ?_, ?_, o1, ?_, ?_⟩, t2, ?_⟩
  · simp [KnobInput.mdlStart, KnobInput.mdlInitializeConditions,
      real_to_int, truncReal, int32_t, int8_t, shiftRight_eq_div]
  · simp [KnobInput.mdlStart, KnobInput.mdlInitializeConditions,
      real_to_int, truncReal, int32_t, int8_t, shiftRight_eq_div]
  · simp [KnobInput.mdlStart, KnobInput.mdlInitializeConditions, KnobInput.updates,
      KnobInput.mdlUpdate, land_0xff, real_to_int, truncReal, int32_t, int8_t,
      shiftRight_eq_div]
  · rw [w1]; simp [int32_t]
  · rw [w2, o2]; simp [int32_t]

/-! ## DC motor: the duty word -/

/-- C3, counterexample. The PWM command is the double nearest to 0.3 (it is a
binary64 value). Its exact product with 5000 lies just below 1500 and truncates
to 1499, so the claim's word is 1499 OR'ed with the direction-A tag; the double
product rounds to 1500, and `mdlUpdate` writes 1500 OR'ed with the direction-A
tag, the word 0x400005dc on the sample register map. -/
theorem motor_duty_rounding_sample :
    binary64_round DCMotor.double_0_3 = DCMotor.double_0_3 ∧
    ⌊DCMotor.clampedDuty DCMotor.double_0_3⌋₊ = 1499 ∧
    (DCMotor.mdlUpdate DCMotor.sampleRegs DCMotor.double_0_3 0 ⟨some 7, some 9, 0, none⟩).map
        (fun r => DCMotor.regWrites r.2) = some [(some 7, 0x0c, 0x400005dc)] ∧
    (DCMotor.mdlUpdate DCMotor.sampleRegs DCMotor.double_0_3 0 ⟨some 7, some 9, 0, none⟩).map
        (fun r => DCMotor.regWrites r.2) ≠
      some [(some 7, DCMotor.sampleRegs.DCSPDRV_REG_DUTY_o,
        if DCMotor.clampedDuty DCMotor.double_0_3 > 0
          then ⌊DCMotor.clampedDuty DCMotor.double_0_3⌋₊
            ||| DCMotor.sampleRegs.DCSPDRV_REG_DUTY_DIR_A_m
          else ⌊-DCMotor.clampedDuty DCMotor.double_0_3⌋₊
            ||| DCMotor.sampleRegs.DCSPDRV_REG_DUTY_DIR_B_m)] := by
  have hc : DCMotor.clampedDuty DCMotor.double_0_3 = 6755399441055743750 / 4503599627370496 := by
    unfold DCMotor.clampedDuty DCMotor.double_0_3
    norm_num
  have hfl : ⌊DCMotor.clampedDuty DCMotor.double_0_3⌋₊ = 1499 := by
    rw [hc, Nat.floor_eq_iff (by norm_num)]
    norm_num
  have hr : DCMotor.roundedDuty DCMotor.double_0_3 = 1500 := by
    unfold DCMotor.roundedDuty DCMotor.double_0_3
    rw [binary64_round_0_3_mul_5000]
    norm_num
  have hw : (DCMotor.mdlUpdate DCMotor.sampleRegs DCMotor.double_0_3 0
      ⟨some 7, some 9, 0, none⟩).map (fun r => DCMotor.regWrites r.2)
      = some [(some 7, 0x0c, 0x400005dc)] := by
    rw [DCMotor.mdlUpdate_regWrites DCMotor.sampleRegs DCMotor.double_0_3 0
      ⟨some 7, some 9, 0, none⟩ 9 rfl, hr]
    norm_num [DCMotor.sampleRegs]
    decide
  refine ⟨double_0_3_is_binary64, hfl, hw, ?_⟩
  rw [hw, hfl, if_pos (by rw [hc]; norm_num)]
  decide

/-- C3, amended. For every PWM command `c`, a finite double, `mdlUpdate` on an
instance with a position cell makes exactly one register write, to the duty
register: with `duty` the double product `c * 5000` (the exact product rounded
to binary64) clamped to `[-5000, 5000]`, the word is `trunc(duty)` OR'ed with the
direction-A tag if `duty > 0`, and `trunc(-duty)` OR'ed with the direction-B tag
otherwise. The magnitude is at most 5000, and it is 5000 for every `c` above 1
(direction A) and below -1 (direction B). -/
theorem motor_update_duty_word (R : DCMotor.DcspdrvRegs) (c : ℚ) (irc : Nat)
    (S : DCMotor.SimStruct) (p : Nat) (hp : S.PWORK_ZYNQDCMOTPOS_STATE = some p) :
    (DCMotor.mdlUpdate R c irc S).map (fun r => DCMotor.regWrites r.2) =
      some [(S.PWORK_ZYNQDCMOTMEM_STATE, R.DCSPDRV_REG_DUTY_o,
        if DCMotor.roundedDuty c > 0
          then ⌊DCMotor.roundedDuty c⌋₊ ||| R.DCSPDRV_REG_DUTY_DIR_A_m
          else ⌊-DCMotor.roundedDuty c⌋₊ ||| R.DCSPDRV_REG_DUTY_DIR_B_m)] ∧
    ⌊DCMotor.roundedDuty c⌋₊ ≤ 5000 ∧ ⌊-DCMotor.roundedDuty c⌋₊ ≤ 5000 ∧
    (1 < c →
      (DCMotor.mdlUpdate R c irc S).map (fun r => DCMotor.regWrites r.2) =
        some [(S.PWORK_ZYNQDCMOTMEM_STATE, R.DCSPDRV_REG_DUTY_o,
          5000 ||| R.DCSPDRV_REG_DUTY_DIR_A_m)]) ∧
    (c < -1 →
      (DCMotor.mdlUpdate R c irc S).map (fun r => DCMotor.regWrites r.2) =
        some [(S.PWORK_ZYNQDCMOTMEM_STATE, R.DCSPDRV_REG_DUTY_o,
          5000 ||| R.DCSPDRV_REG_DUTY_DIR_B_m)]) := by
  have hb := DCMotor.roundedDuty_bounds c
  have hmain := DCMotor.mdlUpdate_regWrites R c irc S p hp
  refine ⟨hmain, floor_le_5000 _ hb.2, floor_le_5000 _ (by linarith), ?_, ?_⟩
  · intro hc
    have hx : 5000 ≤ binary64_round (c * 5000) := binary64_round_ge_5000 _ (by linarith)
    have h5 : DCMotor.roundedDuty c = 5000 := by
      unfold DCMotor.roundedDuty
      rw [min_eq_left hx, max_eq_right (by norm_num)]
    rw [hmain, h5]
    simp
  · intro hc
    have hx : binary64_round (c * 5000) ≤ -5000 := binary64_round_le_neg_5000 _ (by linarith)
    have h5 : DCMotor.roundedDuty c = -5000 := by
      unfold DCMotor.roundedDuty
      rw [min_eq_right (by linarith), max_eq_left hx]
    rw [hmain, h5]
    simp

/-- Witness for C3: the two scenarios of the claim on the sample register map.
A command of 2.0 writes magnitude 5000 with direction A, a command of -0.5
writes magnitude 2500 with direction B. -/
theorem motor_update_duty_word_witness :
    (⟨some 7, some 9, 0, none⟩ : DCMotor.SimStruct).PWORK_ZYNQDCMOTPOS_STATE = some 9 ∧
    (DCMotor.mdlUpdate DCMotor.sampleRegs 2 0 ⟨some 7, some 9, 0, none⟩).map
        (fun r => DCMotor.regWrites r.2) = some [(some 7, 0x0c, 5000 ||| 0x40000000)] ∧
    (DCMotor.mdlUpdate DCMotor.sampleRegs (-1 / 2) 0 ⟨some 7, some 9, 0, none⟩).map
        (fun r => DCMotor.regWrites r.2) = some [(some 7, 0x0c, 2500 ||| 0x80000000)] := by
  refine ⟨rfl, ?_, ?_⟩
  · exact (motor_update_duty_word DCMotor.sampleRegs 2 0 ⟨some 7, some 9, 0, none⟩ 9 rfl).2.2.2.1
      (by norm_num)
  · have h := (motor_update_duty_word DCMotor.sampleRegs (-1 / 2) 0
      ⟨some 7, some 9, 0, none⟩ 9 rfl).1
    have hd : DCMotor.roundedDuty (-1 / 2) = -2500 := by
      unfold DCMotor.roundedDuty
      have hx : (-1 / 2 : ℚ) * 5000 = -2500 := by norm_num
      rw [hx, binary64_round_neg_2500]
      norm_num
    rw [hd] at h
    rw [h]
    norm_num [DCMotor.sampleRegs]

/-- C4, counterexample. On the sample register map a PWM command of 0 writes
the word 0x80000000 to the duty register: magnitude 0 with the direction-B tag,
which is not the word 0 OR'ed with the direction-A tag. -/
theorem motor_zero_pwm_sample :
    (DCMotor.mdlUpdate DCMotor.sampleRegs 0 0 ⟨some 7, some 9, 0, none⟩).map
        (fun r => DCMotor.regWrites r.2) = some [(some 7, 0x0c, 0x80000000)] ∧
    (DCMotor.mdlUpdate DCMotor.sampleRegs 0 0 ⟨some 7, some 9, 0, none⟩).map
        (fun r => DCMotor.regWrites r.2) ≠
      some [(some 7, DCMotor.sampleRegs.DCSPDRV_REG_DUTY_o,
        0 ||| DCMotor.sampleRegs.DCSPDRV_REG_DUTY_DIR_A_m)] := by
  have h : (DCMotor.mdlUpdate DCMotor.sampleRegs 0 0 ⟨some 7, some 9, 0, none⟩).map
      (fun r => DCMotor.regWrites r.2) = some [(some 7, 0x0c, 0x80000000)] := by
    have hw := DCMotor.mdlUpdate_regWrites DCMotor.sampleRegs 0 0 ⟨some 7, some 9, 0, none⟩ 9 rfl
    rw [hw, DCMotor.roundedDuty_zero]
    simp [DCMotor.sampleRegs]
  refine ⟨h, ?_⟩
  rw [h]
  simp [DCMotor.sampleRegs]

/-- C4, amended. For every register map, a PWM command of 0 makes `mdlUpdate`
write to the duty register the word carrying the direction-B tag with
magnitude 0, and nothing else. -/
theorem motor_zero_pwm_dir_B (R : DCMotor.DcspdrvRegs) (irc : Nat) (m : Option Nat)
    (p : Nat) (x : Int) (e : Option String) :
    (DCMotor.mdlUpdate R 0 irc ⟨m, some p, x, e⟩).map (fun r => DCMotor.regWrites r.2) =
      some [(m, R.DCSPDRV_REG_DUTY_o, 0 ||| R.DCSPDRV_REG_DUTY_DIR_B_m)] := by
  have hw := DCMotor.mdlUpdate_regWrites R 0 irc ⟨m, some p, x, e⟩ p rfl
  rw [hw, DCMotor.roundedDuty_zero]
  simp

/-! ## DC motor: start and terminate -/

/-- C5, evaluated at the input where it fails. From all-`NULL` work pointers a
start whose mapping fails ends with both pointers `NULL` and no register
access; `mdlTerminate` on that state still calls the register write twice with
the `NULL` handle (duty <- 0, control <- 0) before it tests the pointers. It
frees nothing and leaves the state as it was. -/
theorem motor_terminate_unstarted (R : DCMotor.DcspdrvRegs) (id : ℚ) (malloc : Option Nat)
    (x : Int) :
    DCMotor.mdlStart R id (fun _ _ => none) malloc ⟨none, none, x, none⟩ =
      some (⟨none, none, x, some "Error when accessing physical address."⟩,
        [DCMotor.HwCall.map_create
          (if id = 0 then R.DCSPDRV_REG_BASE_PHYS_0 else R.DCSPDRV_REG_BASE_PHYS_1)
          R.DCSPDRV_REG_SIZE]) ∧
    DCMotor.mdlTerminate R ⟨none, none, x, some "Error when accessing physical address."⟩ =
      (⟨none, none, x, some "Error when accessing physical address."⟩,
        [DCMotor.HwCall.reg_wr none R.DCSPDRV_REG_DUTY_o 0,
         DCMotor.HwCall.reg_wr none R.DCSPDRV_REG_CR_o 0]) ∧
    DCMotor.regWrites
        (DCMotor.mdlTerminate R
          ⟨none, none, x, some "Error when accessing physical address."⟩).2 =
      [(none, R.DCSPDRV_REG_DUTY_o, 0), (none, R.DCSPDRV_REG_CR_o, 0)] ∧
    DCMotor.frees
        (DCMotor.mdlTerminate R
          ⟨none, none, x, some "Error when accessing physical address."⟩).2 = [] := by
  refine ⟨rfl, rfl, rfl, rfl⟩

/-- C6. When the mapping and the allocation both succeed, for any motor id,
`mdlStart` returns with both pointers recorded and the cached position 0; its
register writes are exactly four, in this order: control <- encoder reset bit,
period <- 5000 masked by the period mask, duty <- 0, control <- PWM enable bit;
it reads no register, and `mdlOutputs` on the resulting state returns 0. -/
theorem motor_start_sequence (R : DCMotor.DcspdrvRegs) (id : ℚ)
    (mem_address_map_create : Nat → Nat → Option Nat) (m p : Nat) (S : DCMotor.SimStruct)
    (hmap : mem_address_map_create
      (if id = 0 then R.DCSPDRV_REG_BASE_PHYS_0 else R.DCSPDRV_REG_BASE_PHYS_1)
      R.DCSPDRV_REG_SIZE = some m) :
    DCMotor.mdlStart R id mem_address_map_create (some p) S =
      some (⟨some m, some p, 0, S.errorStatus⟩,
        [ DCMotor.HwCall.map_create
            (if id = 0 then R.DCSPDRV_REG_BASE_PHYS_0 else R.DCSPDRV_REG_BASE_PHYS_1)
            R.DCSPDRV_REG_SIZE,
          DCMotor.HwCall.malloc,
          DCMotor.HwCall.reg_wr (some m) R.DCSPDRV_REG_CR_o R.DCSPDRV_REG_CR_IRC_RESET_m,
          DCMotor.HwCall.reg_wr (some m) R.DCSPDRV_REG_PERIOD_o
            (5000 &&& R.DCSPDRV_REG_PERIOD_MASK_m),
          DCMotor.HwCall.reg_wr (some m) R.DCSPDRV_REG_DUTY_o 0,
          DCMotor.HwCall.reg_wr (some m) R.DCSPDRV_REG_CR_o R.DCSPDRV_REG_CR_PWM_ENABLE_m ]) ∧
    (DCMotor.mdlStart R id mem_address_map_create (some p) S).map
        (fun r => DCMotor.regWrites r.2) =
      some [ (some m, R.DCSPDRV_REG_CR_o, R.DCSPDRV_REG_CR_IRC_RESET_m),
             (some m, R.DCSPDRV_REG_PERIOD_o, 5000 &&& R.DCSPDRV_REG_PERIOD_MASK_m),
             (some m, R.DCSPDRV_REG_DUTY_o, 0),
             (some m, R.DCSPDRV_REG_CR_o, R.DCSPDRV_REG_CR_PWM_ENABLE_m) ] ∧
    (DCMotor.mdlStart R id mem_address_map_create (some p) S).map
        (fun r => DCMotor.regReads r.2) = some [] ∧
    (DCMotor.mdlStart R id mem_address_map_create (some p) S).bind
        (fun r => DCMotor.mdlOutputs r.1) = some 0 := by
  have h : DCMotor.mdlStart R id mem_address_map_create (some p) S =
      some (⟨some m, some p, 0, S.errorStatus⟩,
        [ DCMotor.HwCall.map_create
            (if id = 0 then R.DCSPDRV_REG_BASE_PHYS_0 else R.DCSPDRV_REG_BASE_PHYS_1)
            R.DCSPDRV_REG_SIZE,
          DCMotor.HwCall.malloc,
          DCMotor.HwCall.reg_wr (some m) R.DCSPDRV_REG_CR_o R.DCSPDRV_REG_CR_IRC_RESET_m,
          DCMotor.HwCall.reg_wr (some m) R.DCSPDRV_REG_PERIOD_o
            (5000 &&& R.DCSPDRV_REG_PERIOD_MASK_m),
          DCMotor.HwCall.reg_wr (some m) R.DCSPDRV_REG_DUTY_o 0,
          DCMotor.HwCall.reg_wr (some m) R.DCSPDRV_REG_CR_o R.DCSPDRV_REG_CR_PWM_ENABLE_m ]) := by
    unfold DCMotor.mdlStart
    simp only [hmap]
    rfl
  refine ⟨h, ?_, ?_, ?_⟩ <;> rw [h] <;> rfl

/-- Witness for C6: motor 0 on the sample register map, the mapping answering
handle 7 for the first base address only and the allocation answering cell 9. -/
theorem motor_start_sequence_witness :
    (fun (base _size : Nat) => if base = 0x43c20000 then some 7 else none)
        (if (0 : ℚ) = 0 then DCMotor.sampleRegs.DCSPDRV_REG_BASE_PHYS_0
          else DCMotor.sampleRegs.DCSPDRV_REG_BASE_PHYS_1)
        DCMotor.sampleRegs.DCSPDRV_REG_SIZE = some 7 ∧
    (DCMotor.mdlStart DCMotor.sampleRegs 0
        (fun base _size => if base = 0x43c20000 then some 7 else none) (some 9)
        ⟨none, none, 5, none⟩).map (fun r => DCMotor.regWrites r.2) =
      some [(some 7, 0x00, 0x100), (some 7, 0x08, 5000), (some 7, 0x0c, 0), (some 7, 0x00, 0x40)] ∧
    (DCMotor.mdlStart DCMotor.sampleRegs 0
        (fun base _size => if base = 0x43c20000 then some 7 else none) (some 9)
        ⟨none, none, 5, none⟩).bind (fun r => DCMotor.mdlOutputs r.1) = some 0 := by
  have hm : (fun (base _size : Nat) => if base = 0x43c20000 then some 7 else none)
        (if (0 : ℚ) = 0 then DCMotor.sampleRegs.DCSPDRV_REG_BASE_PHYS_0
          else DCMotor.sampleRegs.DCSPDRV_REG_BASE_PHYS_1)
        DCMotor.sampleRegs.DCSPDRV_REG_SIZE = some 7 := by
    simp [DCMotor.sampleRegs]
  have h := motor_start_sequence DCMotor.sampleRegs 0
    (fun base _size => if base = 0x43c20000 then some 7 else none) 7 9 ⟨none, none, 5, none⟩ hm
  refine ⟨hm, ?_, h.2.2.2⟩
  rw [h.2.1]
  decide

/-- C7. When the mapping succeeds and allocating the position cell fails,
`mdlStart` returns with the error status set, the mapped handle recorded and the
position pointer `NULL`; it reads and writes no register; and a later
`mdlTerminate` on that state frees exactly the recorded handle and leaves both
pointers `NULL`. -/
theorem motor_start_malloc_failure (R : DCMotor.DcspdrvRegs) (id : ℚ)
    (mem_address_map_create : Nat → Nat → Option Nat) (m : Nat) (S : DCMotor.SimStruct)
    (hmap : mem_address_map_create
      (if id = 0 then R.DCSPDRV_REG_BASE_PHYS_0 else R.DCSPDRV_REG_BASE_PHYS_1)
      R.DCSPDRV_REG_SIZE = some m) :
    DCMotor.mdlStart R id mem_address_map_create none S =
      some (⟨some m, none, S.irc_pos, some "Error when calling malloc."⟩,
        [ DCMotor.HwCall.map_create
            (if id = 0 then R.DCSPDRV_REG_BASE_PHYS_0 else R.DCSPDRV_REG_BASE_PHYS_1)
            R.DCSPDRV_REG_SIZE,
          DCMotor.HwCall.malloc ]) ∧
    (DCMotor.mdlStart R id mem_address_map_create none S).map
        (fun r => DCMotor.regWrites r.2) = some [] ∧
    (DCMotor.mdlStart R id mem_address_map_create none S).map
        (fun r => DCMotor.regReads r.2) = some [] ∧
    (DCMotor.mdlStart R id mem_address_map_create none S).map
        (fun r => DCMotor.frees (DCMotor.mdlTerminate R r.1).2) = some [m] ∧
    (DCMotor.mdlStart R id mem_address_map_create none S).map
        (fun r => ((DCMotor.mdlTerminate R r.1).1.PWORK_ZYNQDCMOTMEM_STATE,
          (DCMotor.mdlTerminate R r.1).1.PWORK_ZYNQDCMOTPOS_STATE)) = some (none, none) := by
  have h : DCMotor.mdlStart R id mem_address_map_create none S =
      some (⟨some m, none, S.irc_pos, some "Error when calling malloc."⟩,
        [ DCMotor.HwCall.map_create
            (if id = 0 then R.DCSPDRV_REG_BASE_PHYS_0 else R.DCSPDRV_REG_BASE_PHYS_1)
            R.DCSPDRV_REG_SIZE,
          DCMotor.HwCall.malloc ]) := by
    unfold DCMotor.mdlStart
    simp only [hmap]
  refine ⟨h, ?_, ?_, ?_, ?_⟩ <;> rw [h] <;> rfl

/-- Witness for C7: motor 1 on the sample register map, the mapping answering
handle 7 for the second base address only, the allocation failing. -/
theorem motor_start_malloc_failure_witness :
    (fun (base _size : Nat) => if base = 0x43c30000 then some 7 else none)
        (if (1 : ℚ) = 0 then DCMotor.sampleRegs.DCSPDRV_REG_BASE_PHYS_0
          else DCMotor.sampleRegs.DCSPDRV_REG_BASE_PHYS_1)
        DCMotor.sampleRegs.DCSPDRV_REG_SIZE = some 7 ∧
    DCMotor.mdlStart DCMotor.sampleRegs 1
        (fun base _size => if base = 0x43c30000 then some 7 else none) none
        ⟨none, none, 0, none⟩ =
      some (⟨some 7, none, 0, some "Error when calling malloc."⟩,
        [DCMotor.HwCall.map_create 0x43c30000 0x4000, DCMotor.HwCall.malloc]) := by
  have hm : (fun (base _size : Nat) => if base = 0x43c30000 then some 7 else none)
        (if (1 : ℚ) = 0 then DCMotor.sampleRegs.DCSPDRV_REG_BASE_PHYS_0
          else DCMotor.sampleRegs.DCSPDRV_REG_BASE_PHYS_1)
        DCMotor.sampleRegs.DCSPDRV_REG_SIZE = some 7 := by
    simp [DCMotor.sampleRegs]
  have h := (motor_start_malloc_failure DCMotor.sampleRegs 1
    (fun base _size => if base = 0x43c30000 then some 7 else none) 7 ⟨none, none, 0, none⟩ hm).1
  refine ⟨hm, ?_⟩
  rw [h]
  simp [DCMotor.sampleRegs]

/-- C8. On a fully started instance `mdlTerminate` writes 0 to the duty
register, then 0 to the control register (a word with neither the reset bit nor
the enable bit), makes no other register access, and only then frees the mapped
handle and the position cell, each once, leaving both pointers `NULL`. On any
state, it frees a pointer only if it is present. -/
theorem motor_terminate_started (R : DCMotor.DcspdrvRegs) (m p : Nat) (x : Int)
    (e : Option String) (S : DCMotor.SimStruct) :
    DCMotor.mdlTerminate R ⟨some m, some p, x, e⟩ =
      (⟨none, none, x, e⟩,
        [ DCMotor.HwCall.reg_wr (some m) R.DCSPDRV_REG_DUTY_o 0,
          DCMotor.HwCall.reg_wr (some m) R.DCSPDRV_REG_CR_o 0,
          DCMotor.HwCall.free m,
          DCMotor.HwCall.free p ]) ∧
    (0 &&& R.DCSPDRV_REG_CR_IRC_RESET_m = 0 ∧ 0 &&& R.DCSPDRV_REG_CR_PWM_ENABLE_m = 0) ∧
    DCMotor.frees (DCMotor.mdlTerminate R S).2 =
      S.PWORK_ZYNQDCMOTMEM_STATE.toList ++ S.PWORK_ZYNQDCMOTPOS_STATE.toList ∧
    (DCMotor.mdlTerminate R S).1 = ⟨none, none, S.irc_pos, S.errorStatus⟩ := by
  refine ⟨rfl, ⟨Nat.zero_and _, Nat.zero_and _⟩, ?_, ?_⟩
  · obtain ⟨a, b, c, d⟩ := S
    cases a <;> cases b <;> rfl
  · obtain ⟨a, b, c, d⟩ := S
    cases a <;> cases b <;> rfl

/-- C9. For every encoder register word `e` and every PWM command, on an
instance with a position cell, `mdlOutputs` after `mdlUpdate` returns `e`
reinterpreted as a signed 32-bit value, whatever the command and the position
cached before; `mdlUpdate` leaves both work pointers as they were. (`mdlOutputs`
stores to the output port only: in the model it yields a value and no state.) -/
theorem motor_output_after_update (R : DCMotor.DcspdrvRegs) (pwm : ℚ) (e : Nat)
    (S : DCMotor.SimStruct) (p : Nat) (he : e < 4294967296)
    (hp : S.PWORK_ZYNQDCMOTPOS_STATE = some p) :
    (DCMotor.mdlUpdate R pwm e S).bind (fun r => DCMotor.mdlOutputs r.1) =
      some (DCMotor.asSigned32 e) ∧
    (DCMotor.mdlUpdate R pwm e S).map (fun r => r.1) =
      some ⟨S.PWORK_ZYNQDCMOTMEM_STATE, S.PWORK_ZYNQDCMOTPOS_STATE, DCMotor.asSigned32 e,
        S.errorStatus⟩ := by
  have h32 : int32_t (e : Int) = DCMotor.asSigned32 e := by
    unfold int32_t DCMotor.asSigned32
    split <;> omega
  obtain ⟨a, b, c, d⟩ := S
  simp only at hp
  subst hp
  have hs := DCMotor.mdlUpdate_state R pwm e a p c d
  cases hu : DCMotor.mdlUpdate R pwm e ⟨a, some p, c, d⟩ with
  | none => rw [hu] at hs; simp at hs
  | some r =>
    rw [hu] at hs
    simp only [Option.map_some', Option.some.injEq] at hs
    simp only [Option.some_bind, Option.map_some', hs, h32, DCMotor.mdlOutputs, and_self]

/-- Witness for C9: encoder words 0x00000123 and 0xfffffffe, with different
commands and different cached positions, give outputs 291 and -2. -/
theorem motor_output_after_update_witness :
    (0x00000123 < 4294967296 ∧ 0xfffffffe < 4294967296) ∧
    (⟨some 7, some 9, 55, none⟩ : DCMotor.SimStruct).PWORK_ZYNQDCMOTPOS_STATE = some 9 ∧
    (DCMotor.mdlUpdate DCMotor.sampleRegs (1 / 4) 0x00000123 ⟨some 7, some 9, 55, none⟩).bind
        (fun r => DCMotor.mdlOutputs r.1) = some 291 ∧
    (DCMotor.mdlUpdate DCMotor.sampleRegs (-3) 0xfffffffe ⟨some 7, some 9, -8, none⟩).bind
        (fun r => DCMotor.mdlOutputs r.1) = some (-2) := by
  refine ⟨⟨by decide, by decide⟩, rfl, ?_, ?_⟩
  · exact (motor_output_after_update DCMotor.sampleRegs (1 / 4) 0x00000123
      ⟨some 7, some 9, 55, none⟩ 9 (by decide) rfl).1
  · exact (motor_output_after_update DCMotor.sampleRegs (-3) 0xfffffffe
      ⟨some 7, some 9, -8, none⟩ 9 (by decide) rfl).1

/-! ## Knob input: one update step -/

/-- C10, counterexample. With `raw = 2147483647`, channel 0 and register value 0
the new byte is 0, `(uint8)raw` is 255 and the wrapped delta is
`(int8)(0 - 255) = 1`; the new `raw` is -2147483648, which is not
2147483647 + 1. -/
theorem knob_update_overflow :
    int8_t ((KnobInput.extractLane 0 0 : Int) - uint8_t 2147483647) = 1 ∧
    (KnobInput.mdlUpdate 0 ⟨some 0, 0, 2147483647, 0, none⟩).IWORK_VALUE_RAW = -2147483648 ∧
    (KnobInput.mdlUpdate 0 ⟨some 0, 0, 2147483647, 0, none⟩).IWORK_VALUE_RAW ≠
      2147483647 + int8_t ((KnobInput.extractLane 0 0 : Int) - uint8_t 2147483647) := by
  have hd : int8_t ((KnobInput.extractLane 0 0 : Int) - uint8_t 2147483647) = 1 := by
    simp [KnobInput.extractLane, int8_t, uint8_t]
  have hr : (KnobInput.mdlUpdate 0 ⟨some 0, 0, 2147483647, 0, none⟩).IWORK_VALUE_RAW
      = -2147483648 := by
    simp [KnobInput.mdlUpdate, land_0xff, shiftRight_eq_div, int32_t, int8_t]
  refine ⟨hd, hr, ?_⟩
  rw [hr, hd]
  decide

/-- C10, amended. For every stored `raw`, every channel in {0,1,2} and every
register value, with `new_byte = (packed >> 8*channel) & 0xff`, one `mdlUpdate`
leaves `raw` at the old `raw` plus `(int8)(new_byte - (uint8)raw)` reduced
modulo 2^32 into the signed 32-bit range, and exactly at that sum whenever the
sum lies in the signed 32-bit range. The delta the code computes on the
full-width `raw` is the specification's, it lies in [-128, 127] and is congruent
to `new_byte - raw` modulo 256; offset and channel are unchanged. -/
theorem knob_update_step (ch : Nat) (hch : ch ≤ 2) (packed : Nat) (S : KnobInput.SimStruct)
    (hc : S.IWORK_CHANNEL = ch) :
    (KnobInput.mdlUpdate packed S).IWORK_VALUE_RAW =
      int32_t (S.IWORK_VALUE_RAW +
        int8_t ((KnobInput.extractLane packed ch : Int) - uint8_t S.IWORK_VALUE_RAW)) ∧
    ((-2147483648 ≤ S.IWORK_VALUE_RAW +
          int8_t ((KnobInput.extractLane packed ch : Int) - uint8_t S.IWORK_VALUE_RAW) ∧
      S.IWORK_VALUE_RAW +
          int8_t ((KnobInput.extractLane packed ch : Int) - uint8_t S.IWORK_VALUE_RAW)
        ≤ 2147483647) →
      (KnobInput.mdlUpdate packed S).IWORK_VALUE_RAW =
        S.IWORK_VALUE_RAW +
          int8_t ((KnobInput.extractLane packed ch : Int) - uint8_t S.IWORK_VALUE_RAW)) ∧
    int8_t (int32_t ((KnobInput.extractLane packed ch : Int) - S.IWORK_VALUE_RAW)) =
      int8_t ((KnobInput.extractLane packed ch : Int) - uint8_t S.IWORK_VALUE_RAW) ∧
    (-128 ≤ int8_t ((KnobInput.extractLane packed ch : Int) - uint8_t S.IWORK_VALUE_RAW) ∧
      int8_t ((KnobInput.extractLane packed ch : Int) - uint8_t S.IWORK_VALUE_RAW) ≤ 127) ∧
    (int8_t ((KnobInput.extractLane packed ch : Int) - uint8_t S.IWORK_VALUE_RAW)
        - ((KnobInput.extractLane packed ch : Int) - S.IWORK_VALUE_RAW)) % 256 = 0 ∧
    (KnobInput.mdlUpdate packed S).IWORK_VALUE_OFFS = S.IWORK_VALUE_OFFS ∧
    (KnobInput.mdlUpdate packed S).IWORK_CHANNEL = S.IWORK_CHANNEL := by
  have hraw : (KnobInput.mdlUpdate packed S).IWORK_VALUE_RAW =
      int32_t (S.IWORK_VALUE_RAW +
        int8_t (int32_t ((KnobInput.extractLane packed ch : Int) - S.IWORK_VALUE_RAW))) := by
    simp only [KnobInput.mdlUpdate, hc, knob_value_lane packed ch hch]
  have hdelta : int8_t (int32_t ((KnobInput.extractLane packed ch : Int) - S.IWORK_VALUE_RAW)) =
      int8_t ((KnobInput.extractLane packed ch : Int) - uint8_t S.IWORK_VALUE_RAW) := by
    unfold int8_t int32_t uint8_t
    omega
  refine ⟨?_, ?_, hdelta, ?_, ?_, rfl, rfl⟩
  · rw [hraw, hdelta]
  · intro hr
    rw [hraw, hdelta]
    unfold int32_t
    omega
  · unfold int8_t
    omega
  · unfold int8_t uint8_t
    omega

/-- Witness for C10: channel 1, `raw = 50`, register 0x00003700 (new byte 0x37):
the delta is +5 and the new `raw` is 55. -/
theorem knob_update_step_witness :
    (1 ≤ 2 ∧ (⟨some 0, 1, 50, 50, none⟩ : KnobInput.SimStruct).IWORK_CHANNEL = ((1 : Nat) : Int)) ∧
    (KnobInput.mdlUpdate 0x00003700 ⟨some 0, 1, 50, 50, none⟩).IWORK_VALUE_RAW = 55 := by
  have h := (knob_update_step 1 (by decide) 0x00003700 ⟨some 0, 1, 50, 50, none⟩ rfl).1
  refine ⟨⟨by decide, rfl⟩, ?_⟩
  rw [h]
  simp [extractLane_eq, int32_t, int8_t, uint8_t]

/-! ## Knob input: parameter check -/

/-- C11, evaluated at an input where it fails, with the condition the code
tests. A channel of 1.5 (with sample time -1 and initial value 100) is not one
of 0, 1, 2, yet `mdlCheckParameters` sets no error, and `mdlStart` then runs with
channel 1. In general, from a clear error status, an error is reported exactly
when the sample time is negative and not -1, or the channel is below 0 or above
2, or the initial value is outside `[INT_MIN, INT_MAX]`. -/
theorem knob_check_parameters_fraction (ts ch iv : ℚ) (h : Option Nat) (a b c : Int) :
    (KnobInput.mdlCheckParameters (-1) (3 / 2) 100 ⟨h, a, b, c, none⟩).errorStatus = none ∧
    (KnobInput.mdlStart (some 0) 0 (3 / 2) 100 ⟨h, a, b, c, none⟩).IWORK_CHANNEL = 1 ∧
    ((KnobInput.mdlCheckParameters ts ch iv ⟨h, a, b, c, none⟩).errorStatus ≠ none ↔
      ((ts < 0 ∧ ts ≠ -1) ∨ (ch < 0 ∨ ch > 2) ∨
        (iv < (-2147483648 : ℚ) ∨ iv > (2147483647 : ℚ)))) := by
  refine ⟨?_, ?_, ?_⟩
  · norm_num [KnobInput.mdlCheckParameters, KnobInput.INT_MIN, KnobInput.INT_MAX]
  · have hf : ⌊(3 / 2 : ℚ)⌋ = 1 := by
      rw [Int.floor_eq_iff]
      norm_num
    have hp : (0 : ℚ) ≤ 3 / 2 := by norm_num
    simp [KnobInput.mdlStart, KnobInput.mdlInitializeConditions, real_to_int, truncReal,
      hp, hf, int32_t]
  · unfold KnobInput.mdlCheckParameters KnobInput.INT_MIN KnobInput.INT_MAX
    by_cases h1 : ts < 0 ∧ ts ≠ -1 <;> by_cases h2 : ch < 0 ∨ ch > 2 <;>
      by_cases h3 : iv < (-2147483648 : ℚ) ∨ iv > (2147483647 : ℚ) <;>
      simp [h1, h2, h3]

/-! ## Knob input: aliasing, the low byte of `raw`, and the other lanes -/

namespace KnobInput

/-- One `mdlUpdate` step for a true movement of any size `d`: the step adds the
movement wrapped to a signed byte. -/
theorem mdlUpdate_raw_of_any_move (ch : Nat) (hch : ch ≤ 2) (prev p : Nat) (d : Int)
    (S : SimStruct) (hc : S.IWORK_CHANNEL = ch)
    (hraw : S.IWORK_VALUE_RAW % 256 = (extractLane prev ch : Int))
    (hmove : (extractLane p ch : Int) = ((extractLane prev ch : Int) + d) % 256) :
    (mdlUpdate p S).IWORK_VALUE_RAW = int32_t (S.IWORK_VALUE_RAW + int8_t d) := by
  simp only [mdlUpdate, hc, knob_value_lane p ch hch]
  rw [hmove, ← hraw]
  unfold int32_t int8_t
  omega

/-- The result of `mdlUpdate` depends on the register value only through the
selected lane byte. -/
theorem mdlUpdate_of_lane_eq (ch : Nat) (hch : ch ≤ 2) (p q : Nat) (S : SimStruct)
    (hc : S.IWORK_CHANNEL = ch) (hl : extractLane p ch = extractLane q ch) :
    mdlUpdate p S = mdlUpdate q S := by
  simp only [mdlUpdate, hc, knob_value_lane p ch hch, knob_value_lane q ch hch, hl]

/-- After any `mdlUpdate` the low byte of `raw` is the lane byte just read. -/
theorem mdlUpdate_raw_low_byte (ch : Nat) (hch : ch ≤ 2) (p : Nat) (S : SimStruct)
    (hc : S.IWORK_CHANNEL = ch) :
    (mdlUpdate p S).IWORK_VALUE_RAW % 256 = (extractLane p ch : Int) := by
  have hl : (0 : Int) ≤ (extractLane p ch : Int) ∧ (extractLane p ch : Int) < 256 := by
    rw [extractLane_eq]
    omega
  simp only [mdlUpdate, hc, knob_value_lane p ch hch]
  unfold int32_t int8_t
  omega

/-- The `raw` left by `mdlUpdate` is a signed 32-bit value. -/
theorem mdlUpdate_raw_range (p : Nat) (S : SimStruct) :
    -2147483648 ≤ (mdlUpdate p S).IWORK_VALUE_RAW ∧
      (mdlUpdate p S).IWORK_VALUE_RAW ≤ 2147483647 := by
  simp only [mdlUpdate]
  unfold int32_t
  omega

/-- An `mdlUpdate` that reads the lane byte `raw` already ends in changes nothing. -/
theorem mdlUpdate_same_byte (ch : Nat) (hch : ch ≤ 2) (p : Nat) (S : SimStruct)
    (hc : S.IWORK_CHANNEL = ch)
    (hraw : S.IWORK_VALUE_RAW % 256 = (extractLane p ch : Int))
    (hr : -2147483648 ≤ S.IWORK_VALUE_RAW ∧ S.IWORK_VALUE_RAW ≤ 2147483647) :
    mdlUpdate p S = S := by
  have h : (mdlUpdate p S).IWORK_VALUE_RAW = S.IWORK_VALUE_RAW := by
    simp only [mdlUpdate, hc, knob_value_lane p ch hch]
    rw [← hraw]
    unfold int32_t int8_t
    omega
  obtain ⟨m, c, r, o, e⟩ := S
  simp only [mdlUpdate] at h ⊢
  rw [h]

end KnobInput

/-- C12, counterexample. With `raw = -2147483648` (low byte 0), channel 0 and a
true movement of d = 255 counts the new byte is 255; the update leaves
`raw = 2147483647`, which is not -2147483648 + (255 - 256). -/
theorem knob_alias_overflow :
    ((-2147483648 : Int) % 256 = (KnobInput.extractLane 0 0 : Int) ∧
      (KnobInput.extractLane 255 0 : Int) = ((KnobInput.extractLane 0 0 : Int) + 255) % 256) ∧
    (KnobInput.mdlUpdate 255 ⟨some 0, 0, -2147483648, 0, none⟩).IWORK_VALUE_RAW = 2147483647 ∧
    (KnobInput.mdlUpdate 255 ⟨some 0, 0, -2147483648, 0, none⟩).IWORK_VALUE_RAW ≠
      -2147483648 + (255 - 256) := by
  have hr : (KnobInput.mdlUpdate 255 ⟨some 0, 0, -2147483648, 0, none⟩).IWORK_VALUE_RAW
      = 2147483647 := by
    simp [KnobInput.mdlUpdate, land_0xff, shiftRight_eq_div, int32_t, int8_t]
  refine ⟨⟨?_, ?_⟩, hr, ?_⟩
  · simp [extractLane_eq]
  · simp [extractLane_eq]
  · rw [hr]
    decide

/-- C12, amended. On a state whose `raw` ends in the previous lane byte, for
every channel in {0,1,2}: a true movement of `d` counts with 128 ≤ d ≤ 255
changes `raw` by `d - 256`, and one with -255 ≤ d ≤ -129 changes it by
`d + 256`, in both cases reduced modulo 2^32 into the signed 32-bit range and
exactly so whenever the sum lies in that range. A register value `q` reached by
the movement taken 256 counts the other way gives the very same state as the
register value `p` reached by `d`: the two movements cannot be told apart. -/
theorem knob_update_alias (ch : Nat) (hch : ch ≤ 2) (prev p q : Nat) (d : Int)
    (S : KnobInput.SimStruct) (hc : S.IWORK_CHANNEL = ch)
    (hraw : S.IWORK_VALUE_RAW % 256 = (KnobInput.extractLane prev ch : Int))
    (hp : (KnobInput.extractLane p ch : Int) = ((KnobInput.extractLane prev ch : Int) + d) % 256) :
    ((128 ≤ d ∧ d ≤ 255) →
      (KnobInput.mdlUpdate p S).IWORK_VALUE_RAW = int32_t (S.IWORK_VALUE_RAW + (d - 256)) ∧
      ((-2147483648 ≤ S.IWORK_VALUE_RAW + (d - 256) ∧
          S.IWORK_VALUE_RAW + (d - 256) ≤ 2147483647) →
        (KnobInput.mdlUpdate p S).IWORK_VALUE_RAW = S.IWORK_VALUE_RAW + (d - 256)) ∧
      ((KnobInput.extractLane q ch : Int)
          = ((KnobInput.extractLane prev ch : Int) + (d - 256)) % 256 →
        KnobInput.mdlUpdate q S = KnobInput.mdlUpdate p S)) ∧
    ((-255 ≤ d ∧ d ≤ -129) →
      (KnobInput.mdlUpdate p S).IWORK_VALUE_RAW = int32_t (S.IWORK_VALUE_RAW + (d + 256)) ∧
      ((-2147483648 ≤ S.IWORK_VALUE_RAW + (d + 256) ∧
          S.IWORK_VALUE_RAW + (d + 256) ≤ 2147483647) →
        (KnobInput.mdlUpdate p S).IWORK_VALUE_RAW = S.IWORK_VALUE_RAW + (d + 256)) ∧
      ((KnobInput.extractLane q ch : Int)
          = ((KnobInput.extractLane prev ch : Int) + (d + 256)) % 256 →
        KnobInput.mdlUpdate q S = KnobInput.mdlUpdate p S)) := by
  have key := KnobInput.mdlUpdate_raw_of_any_move ch hch prev p d S hc hraw hp
  constructor
  · intro hd
    have h8 : int8_t d = d - 256 := by unfold int8_t; omega
    rw [h8] at key
    refine ⟨key, ?_, ?_⟩
    · intro hr
      rw [key]
      unfold int32_t
      omega
    · intro hq
      apply KnobInput.mdlUpdate_of_lane_eq ch hch q p S hc
      have : (KnobInput.extractLane q ch : Int) = (KnobInput.extractLane p ch : Int) := by
        rw [hq, hp]
        omega
      exact_mod_cast this
  · intro hd
    have h8 : int8_t d = d + 256 := by unfold int8_t; omega
    rw [h8] at key
    refine ⟨key, ?_, ?_⟩
    · intro hr
      rw [key]
      unfold int32_t
      omega
    · intro hq
      apply KnobInput.mdlUpdate_of_lane_eq ch hch q p S hc
      have : (KnobInput.extractLane q ch : Int) = (KnobInput.extractLane p ch : Int) := by
        rw [hq, hp]
        omega
      exact_mod_cast this

/-- Witness for C12: channel 0, `raw = 10` after byte 10. A true movement of
+200 counts reads byte 210 and moves `raw` by 200 - 256 = -56 to -46; a true
movement of -200 counts reads byte 66 and moves `raw` by -200 + 256 = +56 to 66. -/
theorem knob_update_alias_witness :
    ((0 : Nat) ≤ 2 ∧
      (⟨some 0, 0, 10, 0, none⟩ : KnobInput.SimStruct).IWORK_CHANNEL = ((0 : Nat) : Int) ∧
      (10 : Int) % 256 = (KnobInput.extractLane 10 0 : Int) ∧
      (KnobInput.extractLane 210 0 : Int) = ((KnobInput.extractLane 10 0 : Int) + 200) % 256 ∧
      (KnobInput.extractLane 66 0 : Int) = ((KnobInput.extractLane 10 0 : Int) + -200) % 256) ∧
    (KnobInput.mdlUpdate 210 ⟨some 0, 0, 10, 0, none⟩).IWORK_VALUE_RAW = -46 ∧
    (KnobInput.mdlUpdate 66 ⟨some 0, 0, 10, 0, none⟩).IWORK_VALUE_RAW = 66 := by
  have l10 : (10 : Int) % 256 = (KnobInput.extractLane 10 0 : Int) := by
    simp [extractLane_eq]
  have l210 : (KnobInput.extractLane 210 0 : Int)
      = ((KnobInput.extractLane 10 0 : Int) + 200) % 256 := by
    simp [extractLane_eq]
  have l66 : (KnobInput.extractLane 66 0 : Int)
      = ((KnobInput.extractLane 10 0 : Int) + -200) % 256 := by
    simp [extractLane_eq]
  have w1 := ((knob_update_alias 0 (by decide) 10 210 210 200 ⟨some 0, 0, 10, 0, none⟩ rfl
    l10 l210).1 (by decide)).1
  have w2 := ((knob_update_alias 0 (by decide) 10 66 66 (-200) ⟨some 0, 0, 10, 0, none⟩ rfl
    l10 l66).2 (by decide)).1
  refine ⟨⟨by decide, rfl, l10, l210, l66⟩, ?_, ?_⟩
  · rw [w1]; simp [int32_t]
  · rw [w2]; simp [int32_t]

namespace KnobInput

/-- The invariant of a run: channel fixed, `raw` a signed 32-bit value whose
low byte is the lane byte read most recently. -/
theorem updates_low_byte (ch : Nat) (hch : ch ≤ 2) :
    ∀ (ps : List Nat) (last : Nat) (S : SimStruct),
      S.IWORK_CHANNEL = ch →
      S.IWORK_VALUE_RAW % 256 = (extractLane last ch : Int) →
      (-2147483648 ≤ S.IWORK_VALUE_RAW ∧ S.IWORK_VALUE_RAW ≤ 2147483647) →
      (updates ps S).IWORK_CHANNEL = ch ∧
      (updates ps S).IWORK_VALUE_RAW % 256 = (extractLane (lastRead last ps) ch : Int) ∧
      (-2147483648 ≤ (updates ps S).IWORK_VALUE_RAW ∧
        (updates ps S).IWORK_VALUE_RAW ≤ 2147483647) := by
  intro ps
  induction ps with
  | nil =>
    intro last S hc hraw hr
    exact ⟨hc, hraw, hr⟩
  | cons p rest ih =>
    intro last S hc hraw hr
    have h := ih p (mdlUpdate p S) (by rw [mdlUpdate_channel, hc])
      (mdlUpdate_raw_low_byte ch hch p S hc) (mdlUpdate_raw_range p S)
    simpa only [updates, lastRead, List.foldl_cons, List.getLastD_cons] using h

theorem mdlStart_raw_range (h p : Nat) (c iv : ℚ) (S : SimStruct) :
    -2147483648 ≤ (mdlStart (some h) p c iv S).IWORK_VALUE_RAW ∧
      (mdlStart (some h) p c iv S).IWORK_VALUE_RAW ≤ 2147483647 := by
  unfold mdlStart mdlInitializeConditions
  simp only
  unfold int8_t
  omega

end KnobInput

/-- C13. For every channel in {0,1,2}: after a successful `mdlStart` and any
number of later `mdlUpdate` steps, the low 8 bits of `raw` equal the selected
lane byte of the register value read most recently; and an `mdlUpdate` that
reads that same register value again leaves the whole state, so `raw`, the
offset and the output, unchanged. -/
theorem knob_raw_low_byte_invariant (ch : Nat) (hch : ch ≤ 2) (h p0 : Nat) (iv : ℚ)
    (S0 : KnobInput.SimStruct) (ps : List Nat) :
    (KnobInput.updates ps (KnobInput.mdlStart (some h) p0 ch iv S0)).IWORK_VALUE_RAW % 256
      = (KnobInput.extractLane (KnobInput.lastRead p0 ps) ch : Int) ∧
    KnobInput.mdlUpdate (KnobInput.lastRead p0 ps)
        (KnobInput.updates ps (KnobInput.mdlStart (some h) p0 ch iv S0))
      = KnobInput.updates ps (KnobInput.mdlStart (some h) p0 ch iv S0) ∧
    KnobInput.mdlOutputs (KnobInput.mdlUpdate (KnobInput.lastRead p0 ps)
        (KnobInput.updates ps (KnobInput.mdlStart (some h) p0 ch iv S0)))
      = KnobInput.mdlOutputs (KnobInput.updates ps (KnobInput.mdlStart (some h) p0 ch iv S0)) := by
  have inv := KnobInput.updates_low_byte ch hch ps p0
    (KnobInput.mdlStart (some h) p0 ch iv S0)
    (KnobInput.mdlStart_channel h p0 ch hch iv S0)
    (KnobInput.mdlStart_raw h p0 ch hch iv S0)
    (KnobInput.mdlStart_raw_range h p0 ch iv S0)
  have same := KnobInput.mdlUpdate_same_byte ch hch (KnobInput.lastRead p0 ps)
    (KnobInput.updates ps (KnobInput.mdlStart (some h) p0 ch iv S0)) inv.1 inv.2.1 inv.2.2
  refine ⟨inv.2.1, same, ?_⟩
  rw [same]

/-- Witness for C13: channel 1, initial value 100, register 0x00003200 at start,
then 0x00003700 and 0x0000fe00. The last byte read is 0xfe, `raw` is 50 + 5 - 57
= -2 with low byte 0xfe, and reading 0x0000fe00 once more changes nothing. -/
theorem knob_raw_low_byte_invariant_witness :
    (1 : Nat) ≤ 2 ∧
    KnobInput.lastRead 0x00003200 [0x00003700, 0x0000fe00] = 0x0000fe00 ∧
    (KnobInput.updates [0x00003700, 0x0000fe00]
        (KnobInput.mdlStart (some 0) 0x00003200 ((1 : Nat) : ℚ) 100
          ⟨none, 0, 0, 0, none⟩)).IWORK_VALUE_RAW % 256 = 0xfe ∧
    KnobInput.mdlUpdate 0x0000fe00
        (KnobInput.updates [0x00003700, 0x0000fe00]
          (KnobInput.mdlStart (some 0) 0x00003200 ((1 : Nat) : ℚ) 100 ⟨none, 0, 0, 0, none⟩))
      = KnobInput.updates [0x00003700, 0x0000fe00]
          (KnobInput.mdlStart (some 0) 0x00003200 ((1 : Nat) : ℚ) 100 ⟨none, 0, 0, 0, none⟩) := by
  have w := knob_raw_low_byte_invariant 1 (by decide) 0 0x00003200 100 ⟨none, 0, 0, 0, none⟩
    [0x00003700, 0x0000fe00]
  have hl : KnobInput.lastRead 0x00003200 [0x00003700, 0x0000fe00] = 0x0000fe00 := rfl
  rw [hl] at w
  refine ⟨by decide, hl, ?_, w.2.1⟩
  rw [w.1]
  simp [extractLane_eq]

namespace KnobInput

/-- The `raw` stored by `mdlStart` depends on the register value only through
the selected lane byte. -/
theorem mdlStart_raw_of_lane_eq (ch : Nat) (hch : ch ≤ 2) (h p q : Nat) (iv : ℚ)
    (S : SimStruct) (hl : extractLane p ch = extractLane q ch) :
    (mdlStart (some h) p ch iv S).IWORK_VALUE_RAW =
      (mdlStart (some h) q ch iv S).IWORK_VALUE_RAW := by
  have hp := mdlStart_raw h p ch hch iv S
  have hq := mdlStart_raw h q ch hch iv S
  have rp := mdlStart_raw_range h p ch iv S
  have rq := mdlStart_raw_range h q ch iv S
  have bp : -128 ≤ (mdlStart (some h) p ch iv S).IWORK_VALUE_RAW ∧
      (mdlStart (some h) p ch iv S).IWORK_VALUE_RAW ≤ 127 := by
    unfold mdlStart mdlInitializeConditions
    simp only
    unfold int8_t
    omega
  have bq : -128 ≤ (mdlStart (some h) q ch iv S).IWORK_VALUE_RAW ∧
      (mdlStart (some h) q ch iv S).IWORK_VALUE_RAW ≤ 127 := by
    unfold mdlStart mdlInitializeConditions
    simp only
    unfold int8_t
    omega
  rw [hl] at hp
  omega

end KnobInput

/-- C14, evaluated at inputs where it fails. Channel 0, initial value 100: the
register values 0x00000032 and 0x00000132 agree on bits 0..7, `mdlStart` stores
`raw = 50` for both, but the offsets are 50 and -206 and the first outputs 100
and -156. Channel 2: the register values 0x00320000 and 0x01320000 agree on bits
16..23 and differ in the top byte only; `raw` is 50 for both, the offsets are 50
and -206 and the first outputs 100 and -156. -/
theorem knob_start_offset_other_lanes (S : KnobInput.SimStruct) (h : Nat) :
    (KnobInput.extractLane 0x00000032 0 = KnobInput.extractLane 0x00000132 0 ∧
      (KnobInput.mdlStart (some h) 0x00000032 0 100 S).IWORK_VALUE_RAW = 50 ∧
      (KnobInput.mdlStart (some h) 0x00000132 0 100 S).IWORK_VALUE_RAW = 50 ∧
      (KnobInput.mdlStart (some h) 0x00000032 0 100 S).IWORK_VALUE_OFFS = 50 ∧
      (KnobInput.mdlStart (some h) 0x00000132 0 100 S).IWORK_VALUE_OFFS = -206 ∧
      KnobInput.mdlOutputs (KnobInput.mdlStart (some h) 0x00000032 0 100 S) = 100 ∧
      KnobInput.mdlOutputs (KnobInput.mdlStart (some h) 0x00000132 0 100 S) = -156) ∧
    (KnobInput.extractLane 0x00320000 2 = KnobInput.extractLane 0x01320000 2 ∧
      (KnobInput.mdlStart (some h) 0x00320000 2 100 S).IWORK_VALUE_RAW = 50 ∧
      (KnobInput.mdlStart (some h) 0x01320000 2 100 S).IWORK_VALUE_RAW = 50 ∧
      (KnobInput.mdlStart (some h) 0x00320000 2 100 S).IWORK_VALUE_OFFS = 50 ∧
      (KnobInput.mdlStart (some h) 0x01320000 2 100 S).IWORK_VALUE_OFFS = -206 ∧
      KnobInput.mdlOutputs (KnobInput.mdlStart (some h) 0x00320000 2 100 S) = 100 ∧
      KnobInput.mdlOutputs (KnobInput.mdlStart (some h) 0x01320000 2 100 S) = -156) := by
  refine ⟨⟨?_, ?_, ?_, ?_, ?_, ?_, ?_⟩, ?_, ?_, ?_, ?_, ?_, ?_, ?_⟩
  · rw [extractLane_eq, extractLane_eq]
    norm_num
  · simp [KnobInput.mdlStart, KnobInput.mdlInitializeConditions,
      real_to_int, truncReal, int32_t, int8_t, shiftRight_eq_div]
  · simp [KnobInput.mdlStart, KnobInput.mdlInitializeConditions,
      real_to_int, truncReal, int32_t, int8_t, shiftRight_eq_div]
  · simp [KnobInput.mdlStart, KnobInput.mdlInitializeConditions,
      real_to_int, truncReal, int32_t, int8_t, shiftRight_eq_div]
  · simp [KnobInput.mdlStart, KnobInput.mdlInitializeConditions,
      real_to_int, truncReal, int32_t, int8_t, shiftRight_eq_div]
  · simp [KnobInput.mdlStart, KnobInput.mdlInitializeConditions, KnobInput.mdlOutputs,
      real_to_int, truncReal, int32_t, int8_t, shiftRight_eq_div]
  · simp [KnobInput.mdlStart, KnobInput.mdlInitializeConditions, KnobInput.mdlOutputs,
      real_to_int, truncReal, int32_t, int8_t, shiftRight_eq_div]
  · rw [extractLane_eq, extractLane_eq]
    norm_num
  · simp [KnobInput.mdlStart, KnobInput.mdlInitializeConditions,
      real_to_int, truncReal, int32_t, int8_t, shiftRight_eq_div]
  · simp [KnobInput.mdlStart, KnobInput.mdlInitializeConditions,
      real_to_int, truncReal, int32_t, int8_t, shiftRight_eq_div]
  · simp [KnobInput.mdlStart, KnobInput.mdlInitializeConditions,
      real_to_int, truncReal, int32_t, int8_t, shiftRight_eq_div]
  · simp [KnobInput.mdlStart, KnobInput.mdlInitializeConditions,
      real_to_int, truncReal, int32_t, int8_t, shiftRight_eq_div]
  · simp [KnobInput.mdlStart, KnobInput.mdlInitializeConditions, KnobInput.mdlOutputs,
      real_to_int, truncReal, int32_t, int8_t, shiftRight_eq_div]
  · simp [KnobInput.mdlStart, KnobInput.mdlInitializeConditions, KnobInput.mdlOutputs,
      real_to_int, truncReal, int32_t, int8_t, shiftRight_eq_div]
